import Mathlib

/-!
Verification of the json-translator pipeline (shallow embedding).

The Python sources are embedded as executable Lean definitions:

* Python strings are Lean `String`s (a `String` is a list of characters, as
  in CPython); `str.split('.')`, `'.'.join`, `str.isdigit`, `int(...)` and
  `str(i)` for list indices are modelled by `pySplitDot`, `pyJoinDot`,
  `pyIsDigit`, `pyToNat` and `natStr` below.
* JSON values as produced by `json.load`, together with the dictionaries the
  code mutates afterwards, are the inductive `PyVal`.  Python dictionaries
  preserve insertion order and, after `_set_value_at_path` has run, may hold
  `int` keys next to `str` keys, so dictionary keys are the sum type `PyKey`.
  JSON numbers are modelled as exact rationals (no claim computes with
  numeric leaves, so the float/rational difference is immaterial).
* Python `dict` equality (order independent, key-set plus value comparison)
  is the boolean function `pyEq`.
-/

namespace JsonTranslator

/-! ## Python string helpers -/

/-- Python `str.isdigit()`: non-empty and every character a digit.  (CPython
also accepts non-ASCII Unicode digits; every string handled by this
code base is ASCII, where the two notions agree.) -/
def pyIsDigit (s : String) : Bool :=
  !s.data.isEmpty && s.data.all Char.isDigit

/-- Python `int(s)` on a string of decimal digits. -/
def pyToNat (s : String) : Nat :=
  s.data.foldl (fun a c => 10 * a + (c.toNat - 48)) 0

/-- Splitting a character list at every dot, the way Python
`str.split('.')` does: `""` gives `[""]`, separators at the ends give
empty fields. -/
def splitDotChars : List Char → List (List Char)
  | [] => [[]]
  | c :: rest =>
    if c = '.' then [] :: splitDotChars rest
    else
      match splitDotChars rest with
      | t :: ts => (c :: t) :: ts
      | [] => [[c]]

/-- Python `'.'.join` on character lists. -/
def joinDotChars : List (List Char) → List Char
  | [] => []
  | [t] => t
  | t :: ts => t ++ '.' :: joinDotChars ts

/-- Python `path.split('.')`. -/
def pySplitDot (s : String) : List String :=
  (splitDotChars s.data).map String.mk

/-- Python `'.'.join(parts)`. -/
def pyJoinDot (parts : List String) : String :=
  String.mk (joinDotChars (parts.map String.data))

theorem splitDotChars_ne_nil (l : List Char) : splitDotChars l ≠ [] := by
  induction l with
  | nil => simp [splitDotChars]
  | cons c rest ih =>
    simp only [splitDotChars]
    split
    · simp
    · cases h : splitDotChars rest with
      | nil => simp
      | cons t ts => simp

theorem splitDotChars_no_dot (t : List Char) (h : '.' ∉ t) :
    splitDotChars t = [t] := by
  induction t with
  | nil => rfl
  | cons c rest ih =>
    simp only [List.mem_cons, not_or] at h
    simp only [splitDotChars]
    rw [if_neg (fun hc => h.1 hc.symm), ih h.2]

theorem splitDotChars_append (t r : List Char) (h : '.' ∉ t) :
    splitDotChars (t ++ '.' :: r) = t :: splitDotChars r := by
  induction t with
  | nil => simp [splitDotChars]
  | cons c rest ih =>
    simp only [List.mem_cons, not_or] at h
    simp only [List.cons_append, splitDotChars, List.append_eq]
    rw [if_neg (fun hc => h.1 hc.symm), ih h.2]

/-- Round trip for dot-joined tokens: splitting the join recovers the
tokens, provided no token contains a dot. -/
theorem splitDotChars_joinDotChars (ts : List (List Char)) (hne : ts ≠ [])
    (h : ∀ t ∈ ts, '.' ∉ t) : splitDotChars (joinDotChars ts) = ts := by
  induction ts with
  | nil => exact absurd rfl hne
  | cons t rest ih =>
    cases rest with
    | nil =>
      simp only [joinDotChars]
      exact splitDotChars_no_dot t (h t (by simp))
    | cons u us =>
      simp only [joinDotChars]
      rw [splitDotChars_append t _ (h t (by simp))]
      rw [ih (by simp) (fun x hx => h x (List.mem_cons_of_mem t hx))]

theorem pySplitDot_pyJoinDot (parts : List String) (hne : parts ≠ [])
    (h : ∀ p ∈ parts, '.' ∉ p.data) : pySplitDot (pyJoinDot parts) = parts := by
  unfold pySplitDot pyJoinDot
  rw [show (String.mk (joinDotChars (parts.map String.data))).data
        = joinDotChars (parts.map String.data) from rfl]
  rw [splitDotChars_joinDotChars _ (by simpa using hne)
    (by intro t ht; obtain ⟨p, hp, rfl⟩ := List.mem_map.mp ht; exact h p hp)]
  rw [List.map_map]
  have : (String.mk ∘ String.data) = id := by
    funext s; cases s; rfl
  rw [this, List.map_id]

/-! ### Decimal representation of list indices (Python `str(i)`) -/

/-- One step of decimal rendering: peel digits with fuel (structural, so
concrete values reduce definitionally). -/
def decChars : Nat → Nat → List Char → List Char
  | 0, _, ds => ds
  | fuel + 1, n, ds =>
    if n < 10 then Char.ofNat (48 + n) :: ds
    else decChars fuel (n / 10) (Char.ofNat (48 + n % 10) :: ds)

/-- Python `str(i)` for a non-negative integer (decimal). -/
def natStr (n : Nat) : String :=
  String.mk (decChars (n + 1) n [])

theorem digitChar_isDigit (d : Nat) (h : d < 10) :
    (Char.ofNat (48 + d)).isDigit = true := by
  interval_cases d <;> decide

theorem digitChar_ne_dot (d : Nat) (h : d < 10) : Char.ofNat (48 + d) ≠ '.' := by
  interval_cases d <;> decide

theorem digitChar_toNat (d : Nat) (h : d < 10) :
    (Char.ofNat (48 + d)).toNat = 48 + d := by
  interval_cases d <;> decide

theorem decChars_mem (P : Char → Prop) :
    ∀ (fuel n : Nat) (ds : List Char), (∀ d < 10, P (Char.ofNat (48 + d))) →
    (∀ c ∈ ds, P c) → ∀ c ∈ decChars fuel n ds, P c := by
  intro fuel
  induction fuel with
  | zero => intro n ds _ hds c hc; exact hds c hc
  | succ fuel ih =>
    intro n ds hdig hds c hc
    rw [decChars] at hc
    by_cases hn : n < 10
    · rw [if_pos hn] at hc
      rcases List.mem_cons.mp hc with he | hm
      · exact he ▸ hdig n hn
      · exact hds c hm
    · rw [if_neg hn] at hc
      refine ih (n / 10) _ hdig ?_ c hc
      intro c2 hc2
      rcases List.mem_cons.mp hc2 with he | hm
      · exact he ▸ hdig (n % 10) (Nat.mod_lt n (by omega))
      · exact hds c2 hm

theorem decChars_length : ∀ (fuel n : Nat) (ds : List Char), 0 < fuel →
    ds.length < (decChars fuel n ds).length := by
  intro fuel
  induction fuel with
  | zero => intro n ds h; cases h
  | succ fuel ih =>
    intro n ds _
    rw [decChars]
    by_cases hn : n < 10
    · rw [if_pos hn]; simp
    · rw [if_neg hn]
      cases fuel with
      | zero => rw [decChars]; simp
      | succ f =>
        have := ih (n / 10) (Char.ofNat (48 + n % 10) :: ds) (by omega)
        simp only [List.length_cons] at this
        omega

theorem decChars_acc : ∀ (fuel n : Nat) (ds : List Char),
    decChars fuel n ds = decChars fuel n [] ++ ds := by
  intro fuel
  induction fuel with
  | zero => intro n ds; rfl
  | succ fuel ih =>
    intro n ds
    rw [decChars, decChars]
    by_cases hn : n < 10
    · rw [if_pos hn, if_pos hn]; rfl
    · rw [if_neg hn, if_neg hn]
      rw [ih (n / 10) (Char.ofNat (48 + n % 10) :: ds),
        ih (n / 10) [Char.ofNat (48 + n % 10)]]
      simp

theorem decChars_extra : ∀ (fuel1 fuel2 n : Nat) (ds : List Char),
    n < fuel1 → n < fuel2 → decChars fuel1 n ds = decChars fuel2 n ds := by
  intro fuel1
  induction fuel1 with
  | zero => intro fuel2 n ds h1; omega
  | succ fuel1 ih =>
    intro fuel2 n ds h1 h2
    cases fuel2 with
    | zero => omega
    | succ f2 =>
      rw [decChars, decChars]
      by_cases hn : n < 10
      · rw [if_pos hn, if_pos hn]
      · rw [if_neg hn, if_neg hn]
        exact ih f2 (n / 10) _ (by omega) (by omega)

theorem decChars_readback : ∀ (n : Nat),
    (decChars (n + 1) n []).foldl (fun a c => 10 * a + (c.toNat - 48)) 0 = n := by
  intro n
  induction n using Nat.strong_induction_on with
  | _ n ih =>
    rw [decChars]
    by_cases hn : n < 10
    · rw [if_pos hn]
      simp only [List.foldl_cons, List.foldl_nil]
      rw [digitChar_toNat n hn]
      omega
    · rw [if_neg hn]
      rw [decChars_acc]
      rw [decChars_extra n (n / 10 + 1) (n / 10) [] (by omega) (by omega)]
      rw [List.foldl_append]
      rw [ih (n / 10) (by omega)]
      simp only [List.foldl_cons, List.foldl_nil]
      rw [digitChar_toNat (n % 10) (Nat.mod_lt n (by omega))]
      omega

theorem natStr_isDigit (n : Nat) : pyIsDigit (natStr n) = true := by
  unfold natStr pyIsDigit
  simp only [Bool.and_eq_true, List.all_eq_true]
  constructor
  · have := decChars_length (n + 1) n [] (by omega)
    simp only [List.length_nil] at this
    cases h : decChars (n + 1) n [] with
    | nil => rw [h] at this; simp at this
    | cons a l => simp [h]
  · intro c hc
    have : c.isDigit = true := by
      refine decChars_mem (fun c => c.isDigit = true) (n + 1) n [] ?_ ?_ c hc
      · intro d hd; exact digitChar_isDigit d hd
      · intro c2 hc2; cases hc2
    exact this

theorem natStr_no_dot (n : Nat) : '.' ∉ (natStr n).data := by
  unfold natStr
  intro hc
  have : ('.' : Char) ≠ '.' := by
    refine decChars_mem (fun c => c ≠ '.') (n + 1) n [] ?_ ?_ '.' hc
    · intro d hd; exact digitChar_ne_dot d hd
    · intro c2 hc2; cases hc2
  exact this rfl

theorem pyToNat_natStr (n : Nat) : pyToNat (natStr n) = n := by
  unfold pyToNat natStr
  exact decChars_readback n

/-! ## The Python value model

`PyVal` covers every value the pipeline manipulates: JSON trees produced by
`json.load` (whose dictionary keys are all strings) and the trees after
`_set_value_at_path` has mutated them (which may also contain `int`
dictionary keys).  Dictionaries are insertion-ordered association lists,
as in CPython. -/

/-- A Python dictionary key: a string or an int (list indices written into
dictionaries by `_set_value_at_path` become int keys). -/
inductive PyKey where
  | s (k : String)
  | i (n : Nat)

/-- A Python value, as produced by `json.load` and mutated by the pipeline. -/
inductive PyVal where
  | str (s : String)
  | num (q : ℚ)
  | bool (b : Bool)
  | null
  | list (xs : List PyVal)
  | dict (kvs : List (PyKey × PyVal))

/-- Equality of dictionary keys (Python `==` on the keys in use; `int` and
`str` keys never compare equal). -/
def PyKey.beq : PyKey → PyKey → Bool
  | .s a, .s b => a == b
  | .i a, .i b => a == b
  | _, _ => false

/-- Python `d[k]` lookup on the association-list model (first match; a
parsed JSON object never has duplicate keys). -/
def dictFind (kvs : List (PyKey × PyVal)) (k : PyKey) : Option PyVal :=
  match kvs with
  | [] => none
  | (k', v) :: rest => if k'.beq k then some v else dictFind rest k

/-- Python `d[k] = v`: overwrite in place if the key is present (keeping
its position), else insert at the end (insertion order). -/
def dictSet (kvs : List (PyKey × PyVal)) (k : PyKey) (v : PyVal) :
    List (PyKey × PyVal) :=
  match kvs with
  | [] => [(k, v)]
  | (k', v') :: rest =>
    if k'.beq k then (k', v) :: rest else (k', v') :: dictSet rest k v

/-- Python list extension `while len(current) <= n: current.append(filler)`. -/
def growTo (xs : List PyVal) (n : Nat) (filler : PyVal) : List PyVal :=
  xs ++ List.replicate (n + 1 - xs.length) filler

/-- Python `==` on values: numbers compare by value (`True == 1` included),
dictionaries by key set and pointwise-equal values, lists pointwise. -/
def pyEq : PyVal → PyVal → Bool
  | .str a, .str b => a == b
  | .num a, .num b => a == b
  | .num a, .bool b => a == (if b then 1 else 0)
  | .bool a, .num b => (if a then (1 : ℚ) else 0) == b
  | .bool a, .bool b => a == b
  | .null, .null => true
  | .list xs, .list ys => pyEqList xs ys
  | .dict xs, .dict ys => xs.length == ys.length && pyEqDictSub xs ys
  | _, _ => false
where
  pyEqList : List PyVal → List PyVal → Bool
    | [], [] => true
    | x :: xs, y :: ys => pyEq x y && pyEqList xs ys
    | _, _ => false
  pyEqDictSub : List (PyKey × PyVal) → List (PyKey × PyVal) → Bool
    | [], _ => true
    | (k, v) :: rest, ys =>
      (match dictFind ys k with
       | some w => pyEq v w
       | none => false) && pyEqDictSub rest ys

/-! ## src/json_extractor.py — `_extract_strings_recursive` -/

/-- The string a dictionary key contributes to a dotted path (JSON trees
only have string keys; an int key is rendered in decimal). -/
def keyStr : PyKey → String
  | .s k => k
  | .i n => natStr n

/-- Python `result[path_str] = obj` on the insertion-ordered mapping:
overwrite in place or append. -/
def strInsert (acc : List (String × String)) (k v : String) :
    List (String × String) :=
  match acc with
  | [] => [(k, v)]
  | (k', v') :: rest =>
    if k' == k then (k', v) :: rest else (k', v') :: strInsert rest k v

mutual

/-- Embedding of `_extract_strings_recursive(obj, path, result)`: strings
record `".".join(path)`, dictionaries recurse per key, lists recurse per
index (rendered with `str(i)`), other scalars contribute nothing. -/
def extractStringsRec : PyVal → List String → List (String × String) →
    List (String × String)
  | .str s, path, result => strInsert result (pyJoinDot path) s
  | .dict kvs, path, result => extractKVs kvs path result
  | .list xs, path, result => extractItems xs 0 path result
  | .num _, _, result => result
  | .bool _, _, result => result
  | .null, _, result => result

/-- The dict loop of `_extract_strings_recursive`. -/
def extractKVs : List (PyKey × PyVal) → List String → List (String × String) →
    List (String × String)
  | [], _, result => result
  | (k, v) :: rest, path, result =>
    extractKVs rest path (extractStringsRec v (path ++ [keyStr k]) result)

/-- The list loop of `_extract_strings_recursive` (`enumerate`). -/
def extractItems : List PyVal → Nat → List String → List (String × String) →
    List (String × String)
  | [], _, _, result => result
  | x :: xs, i, path, result =>
    extractItems xs (i + 1) path (extractStringsRec x (path ++ [natStr i]) result)

end

/-- Flattening one file: `_extract_strings_recursive(json_data, [], {})`. -/
def extractStrings (v : PyVal) : List (String × String) :=
  extractStringsRec v [] []

/-! ## src/json_generator.py — `_set_value_at_path`

The Python function walks the tree with a `current` reference, mutating in
place.  Two behaviours of the source must be reproduced exactly:

* a numeric token against a dictionary writes under an `int` key
  (`current[int(part)]`), silently shadowing any string key spelled the
  same way;
* whenever the code rebinds `current = {}` (non-dict container met by a
  key token, or non-container met by any intermediate token), every later
  write lands in that detached fresh dictionary and the tree is left
  unchanged from that point on; the walk itself then never raises.

The only reachable exception is a `TypeError` from `current[int(last)] =
value` when `current` is an attached non-container; it is modelled as
`Except.error ()`. -/

/-- The `parts[-1]` step of `_set_value_at_path`. -/
def setLast (v : PyVal) (lp : String) (value : PyVal) : Except Unit PyVal :=
  if pyIsDigit lp then
    let n := pyToNat lp
    match v with
    | .list xs => .ok (.list ((growTo xs n .null).set n value))
    | .dict kvs => .ok (.dict (dictSet kvs (.i n) value))
    | _ => .error ()
  else
    match v with
    | .dict kvs => .ok (.dict (dictSet kvs (.s lp) value))
    | _ => .ok v

/-- The `parts[:-1]` walk of `_set_value_at_path`: the current token is
`p`, the remaining tokens are `rest` (the last of `p :: rest` is the final
assignment). -/
def setTok : PyVal → String → List String → PyVal → Except Unit PyVal
  | v, p, [], value => setLast v p value
  | v, p, q :: rest, value =>
    if pyIsDigit p then
      let n := pyToNat p
      match v with
      | .list xs =>
        let xs2 := growTo xs n (.dict [])
        match setTok (xs2.getD n .null) q rest value with
        | .ok c2 => .ok (.list (xs2.set n c2))
        | .error e => .error e
      | .dict kvs =>
        match setTok ((dictFind kvs (.i n)).getD (.dict [])) q rest value with
        | .ok c2 => .ok (.dict (dictSet kvs (.i n) c2))
        | .error e => .error e
      | _ => .ok v
    else
      match v with
      | .dict kvs =>
        match setTok ((dictFind kvs (.s p)).getD (.dict [])) q rest value with
        | .ok c2 => .ok (.dict (dictSet kvs (.s p) c2))
        | .error e => .error e
      | _ => .ok v

/-- Embedding of `_set_value_at_path(json_data, path, value)`; the result
is the tree after mutation (`split('.')` never yields an empty list). -/
def setValueAtPath (json_data : PyVal) (path : String) (value : PyVal) :
    Except Unit PyVal :=
  match pySplitDot path with
  | [] => .ok json_data
  | p :: rest => setTok json_data p rest value

/-- The per-(file, language) loop of `generate_translated_jsons`, applied
with each path's own original string (claim C1's instantiation): successive
`_set_value_at_path` calls on the deep copy. -/
def applyTranslations (t : PyVal) (pairs : List (String × String)) :
    Except Unit PyVal :=
  match pairs with
  | [] => .ok t
  | (p, s) :: rest =>
    match setValueAtPath t p (.str s) with
    | .ok t2 => applyTranslations t2 rest
    | .error e => .error e

/-! ## Well-formedness of source JSON trees -/

/-- A key under which the round trip is undisturbed: a string key that is
not purely numeric and contains no dot. -/
def goodKey : PyKey → Bool
  | .s k => !pyIsDigit k && !k.data.contains '.'
  | .i _ => false

/-- Whether a key is absent from an association list. -/
def keyAbsent (k : PyKey) (kvs : List (PyKey × PyVal)) : Bool :=
  kvs.all fun kv => !kv.1.beq k

/-- Python dictionaries never hold duplicate keys. -/
def distinctKeysB : List (PyKey × PyVal) → Bool
  | [] => true
  | (k, _) :: rest => keyAbsent k rest && distinctKeysB rest

mutual

/-- A JSON tree whose dictionary keys are distinct strings, none purely
numeric and none containing a dot. -/
def wellKeyed : PyVal → Bool
  | .dict kvs => distinctKeysB kvs && wellKeyedKVs kvs
  | .list xs => wellKeyedList xs
  | _ => true

/-- Key/value well-formedness for every entry of a dictionary. -/
def wellKeyedKVs : List (PyKey × PyVal) → Bool
  | [] => true
  | (k, v) :: rest => goodKey k && wellKeyed v && wellKeyedKVs rest

/-- Well-formedness for every element of a list. -/
def wellKeyedList : List PyVal → Bool
  | [] => true
  | x :: xs => wellKeyed x && wellKeyedList xs

end

/-- The walk `addresses v toks w`: starting at `v`, the token sequence
`toks` selects exactly the node `w` (dictionary steps read string keys and
carry non-numeric tokens, list steps carry the decimal index). -/
def addresses : PyVal → List String → PyVal → Prop
  | v, [], w => v = w
  | .dict kvs, p :: rest, w =>
    pyIsDigit p = false ∧ ∃ c, dictFind kvs (.s p) = some c ∧ addresses c rest w
  | .list xs, p :: rest, w =>
    ∃ i, ∃ h : i < xs.length, p = natStr i ∧ addresses (xs.get ⟨i, h⟩) rest w
  | _, _ :: _, _ => False

/-- Like `addresses`, but with dictionary steps phrased by membership;
this is what the extraction traversal provides directly. -/
def addressesMem : PyVal → List String → PyVal → Prop
  | v, [], w => v = w
  | .dict kvs, p :: rest, w =>
    ∃ k c, (k, c) ∈ kvs ∧ keyStr k = p ∧ addressesMem c rest w
  | .list xs, p :: rest, w =>
    ∃ i, ∃ h : i < xs.length, p = natStr i ∧ addressesMem (xs.get ⟨i, h⟩) rest w
  | _, _ :: _, _ => False

theorem PyKey.beq_iff (a b : PyKey) : a.beq b = true ↔ a = b := by
  cases a <;> cases b <;> simp [PyKey.beq]

theorem dictFind_of_mem_distinct {kvs : List (PyKey × PyVal)} {k : PyKey}
    {c : PyVal} (hd : distinctKeysB kvs = true) (hm : (k, c) ∈ kvs) :
    dictFind kvs k = some c := by
  induction kvs with
  | nil => cases hm
  | cons kv rest ih =>
    obtain ⟨k0, v0⟩ := kv
    simp only [distinctKeysB, Bool.and_eq_true] at hd
    rcases List.mem_cons.mp hm with heq | hmem
    · injection heq with h1 h2
      subst h1
      subst h2
      simp [dictFind, (PyKey.beq_iff k k).mpr rfl]
    · have hkne : k0.beq k = false := by
        cases hbk : k0.beq k with
        | false => rfl
        | true =>
          exfalso
          have hk : k0 = k := (PyKey.beq_iff k0 k).mp hbk
          subst hk
          have := (List.all_eq_true.mp hd.1) (k0, c) hmem
          rw [(PyKey.beq_iff k0 k0).mpr rfl] at this
          simp at this
      rw [dictFind, if_neg (by simp [hkne])]
      exact ih hd.2 hmem

theorem dictSet_find_self {kvs : List (PyKey × PyVal)} {k : PyKey} {v : PyVal}
    (h : dictFind kvs k = some v) : dictSet kvs k v = kvs := by
  induction kvs with
  | nil => cases h
  | cons kv rest ih =>
    obtain ⟨k0, v0⟩ := kv
    by_cases hb : k0.beq k = true
    · simp only [dictFind, hb, if_pos] at h
      simp only [dictSet, hb, if_pos]
      cases h
      rfl
    · have hb0 : k0.beq k = false := by revert hb; cases k0.beq k <;> simp
      simp only [dictFind, hb0] at h
      simp only [dictSet, hb0]
      simp only [Bool.false_eq_true, if_neg, ite_false] at h ⊢
      rw [ih h]

theorem list_set_get_self : ∀ (xs : List PyVal) (i : Nat) (h : i < xs.length),
    xs.set i (xs.get ⟨i, h⟩) = xs
  | _ :: _, 0, _ => rfl
  | x :: xs, i + 1, h =>
    congrArg (x :: ·) (list_set_get_self xs i (Nat.lt_of_succ_lt_succ h))

theorem growTo_of_lt {xs : List PyVal} {n : Nat} (h : n < xs.length)
    (filler : PyVal) : growTo xs n filler = xs := by
  unfold growTo
  rw [show n + 1 - xs.length = 0 from by omega]
  simp

theorem list_getD_of_lt : ∀ (xs : List PyVal) (i : Nat) (d : PyVal)
    (h : i < xs.length), xs.getD i d = xs.get ⟨i, h⟩
  | _ :: _, 0, _, _ => rfl
  | _ :: xs, i + 1, d, h => list_getD_of_lt xs i d (Nat.lt_of_succ_lt_succ h)

/--`_set_value_at_path` applied along a path that addresses a node, with
that node's own value, is the identity on the tree. -/
theorem setTok_self : ∀ (rest : List String) (p : String) (v : PyVal)
    (s : String), addresses v (p :: rest) (.str s) →
    setTok v p rest (.str s) = .ok v := by
  intro rest
  induction rest with
  | nil =>
    intro p v s h
    cases v with
    | dict kvs =>
      obtain ⟨hnd, c, hfind, hc⟩ := h
      simp only [addresses] at hc
      subst hc
      show setLast (.dict kvs) p (.str s) = .ok (.dict kvs)
      rw [setLast, if_neg (by simp [hnd])]
      rw [dictSet_find_self hfind]
    | list xs =>
      obtain ⟨i, hi, hp, hrest⟩ := h
      simp only [addresses] at hrest
      subst hp
      show setLast (.list xs) (natStr i) (.str s) = .ok (.list xs)
      rw [setLast, if_pos (by simp [natStr_isDigit])]
      · simp only [pyToNat_natStr]
        rw [growTo_of_lt hi, ← hrest, list_set_get_self]
      · intro kvs hk
        cases hk
    | str a => exact absurd h (by simp [addresses])
    | num a => exact absurd h (by simp [addresses])
    | bool a => exact absurd h (by simp [addresses])
    | null => exact absurd h (by simp [addresses])
  | cons q qs ih =>
    intro p v s h
    cases v with
    | dict kvs =>
      obtain ⟨hnd, c, hfind, hc⟩ := h
      rw [setTok, if_neg (by simp [hnd]), hfind]
      simp only [Option.getD_some]
      rw [ih q c s hc]
      show Except.ok (PyVal.dict (dictSet kvs (PyKey.s p) c))
        = Except.ok (PyVal.dict kvs)
      rw [dictSet_find_self hfind]
    | list xs =>
      obtain ⟨i, hi, hp, hrest⟩ := h
      subst hp
      rw [setTok, if_pos (by simp [natStr_isDigit])]
      · simp only [pyToNat_natStr]
        rw [growTo_of_lt hi, list_getD_of_lt xs i _ hi, ih q _ s hrest]
        show Except.ok (PyVal.list (xs.set i (xs.get ⟨i, hi⟩)))
          = Except.ok (PyVal.list xs)
        rw [list_set_get_self]
      · intro kvs hk
        cases hk
    | str a => exact absurd h (by simp [addresses])
    | num a => exact absurd h (by simp [addresses])
    | bool a => exact absurd h (by simp [addresses])
    | null => exact absurd h (by simp [addresses])

theorem mem_strInsert {acc : List (String × String)} {k v : String}
    {pair : String × String} (h : pair ∈ strInsert acc k v) :
    pair ∈ acc ∨ pair = (k, v) := by
  induction acc with
  | nil =>
    simp only [strInsert] at h
    exact Or.inr (by simpa using h)
  | cons kv rest ih =>
    obtain ⟨k0, v0⟩ := kv
    by_cases hb : (k0 == k) = true
    · have hk : k0 = k := by simpa using hb
      subst hk
      rw [strInsert, if_pos hb] at h
      rcases List.mem_cons.mp h with he | hm
      · exact Or.inr he
      · exact Or.inl (List.mem_cons_of_mem _ hm)
    · rw [strInsert, if_neg hb] at h
      rcases List.mem_cons.mp h with he | hm
      · exact Or.inl (he ▸ List.mem_cons_self _ _)
      · rcases ih hm with h1 | h2
        · exact Or.inl (List.mem_cons_of_mem _ h1)
        · exact Or.inr h2

mutual

/-- Every pair the extractor puts into the result either was already in
the accumulator or addresses a string leaf of the current subtree. -/
theorem extract_mem : ∀ (v : PyVal) (pre : List String)
    (acc : List (String × String)) (pair : String × String),
    pair ∈ extractStringsRec v pre acc →
    pair ∈ acc ∨ ∃ toks, pair.1 = pyJoinDot (pre ++ toks) ∧
      addressesMem v toks (.str pair.2)
  | .str s, pre, acc, pair, h => by
    simp only [extractStringsRec] at h
    rcases mem_strInsert h with hm | he
    · exact Or.inl hm
    · right
      subst he
      exact ⟨[], by rw [List.append_nil], by simp [addressesMem]⟩
  | .dict kvs, pre, acc, pair, h => by
    simp only [extractStringsRec] at h
    rcases extractKVs_mem kvs pre acc pair h with hm | ⟨k, c, toks, hmem, hp, ha⟩
    · exact Or.inl hm
    · right
      refine ⟨keyStr k :: toks, hp, ?_⟩
      simp only [addressesMem]
      exact ⟨k, c, hmem, rfl, ha⟩
  | .list xs, pre, acc, pair, h => by
    simp only [extractStringsRec] at h
    rcases extractItems_mem xs 0 pre acc pair h with hm | ⟨j, hj, toks, hp, ha⟩
    · exact Or.inl hm
    · right
      simp only [Nat.zero_add] at hp
      refine ⟨natStr j :: toks, hp, ?_⟩
      simp only [addressesMem]
      exact ⟨j, hj, rfl, ha⟩
  | .num q, _, acc, pair, h => by
    simp only [extractStringsRec] at h
    exact Or.inl h
  | .bool b, _, acc, pair, h => by
    simp only [extractStringsRec] at h
    exact Or.inl h
  | .null, _, acc, pair, h => by
    simp only [extractStringsRec] at h
    exact Or.inl h

/-- Accumulator invariant of the dict loop of the extractor. -/
theorem extractKVs_mem : ∀ (kvs : List (PyKey × PyVal)) (pre : List String)
    (acc : List (String × String)) (pair : String × String),
    pair ∈ extractKVs kvs pre acc →
    pair ∈ acc ∨ ∃ k c toks, (k, c) ∈ kvs ∧
      pair.1 = pyJoinDot (pre ++ (keyStr k :: toks)) ∧
      addressesMem c toks (.str pair.2)
  | [], _, acc, pair, h => by
    simp only [extractKVs] at h
    exact Or.inl h
  | (k, v) :: rest, pre, acc, pair, h => by
    simp only [extractKVs] at h
    rcases extractKVs_mem rest pre _ pair h with hm | ⟨k2, c2, toks, hmem, hp, ha⟩
    · rcases extract_mem v (pre ++ [keyStr k]) acc pair hm with hm2 | ⟨toks, hp, ha⟩
      · exact Or.inl hm2
      · right
        refine ⟨k, v, toks, List.mem_cons_self _ _, ?_, ha⟩
        rw [hp, List.append_assoc]
        rfl
    · exact Or.inr ⟨k2, c2, toks, List.mem_cons_of_mem _ hmem, hp, ha⟩

/-- Accumulator invariant of the list loop of the extractor. -/
theorem extractItems_mem : ∀ (xs : List PyVal) (i : Nat) (pre : List String)
    (acc : List (String × String)) (pair : String × String),
    pair ∈ extractItems xs i pre acc →
    pair ∈ acc ∨ ∃ j, ∃ hj : j < xs.length, ∃ toks,
      pair.1 = pyJoinDot (pre ++ (natStr (i + j) :: toks)) ∧
      addressesMem (xs.get ⟨j, hj⟩) toks (.str pair.2)
  | [], _, _, acc, pair, h => by
    simp only [extractItems] at h
    exact Or.inl h
  | x :: xs, i, pre, acc, pair, h => by
    simp only [extractItems] at h
    rcases extractItems_mem xs (i + 1) pre _ pair h with hm | ⟨j, hj, toks, hp, ha⟩
    · rcases extract_mem x (pre ++ [natStr i]) acc pair hm with hm2 | ⟨toks, hp, ha⟩
      · exact Or.inl hm2
      · right
        refine ⟨0, by simp, toks, ?_, ha⟩
        rw [hp, List.append_assoc, Nat.add_zero]
        rfl
    · right
      refine ⟨j + 1, by simpa using Nat.succ_lt_succ hj, toks, ?_, ha⟩
      rw [hp, show i + 1 + j = i + (j + 1) from by omega]

end

theorem wellKeyedKVs_mem {kvs : List (PyKey × PyVal)} {k : PyKey} {c : PyVal}
    (hw : wellKeyedKVs kvs = true) (hm : (k, c) ∈ kvs) :
    goodKey k = true ∧ wellKeyed c = true := by
  induction kvs with
  | nil => cases hm
  | cons kv rest ih =>
    obtain ⟨k0, v0⟩ := kv
    simp only [wellKeyedKVs, Bool.and_eq_true] at hw
    rcases List.mem_cons.mp hm with he | hmem
    · injection he with h1 h2
      subst h1
      subst h2
      exact ⟨hw.1.1, hw.1.2⟩
    · exact ih hw.2 hmem

theorem wellKeyedList_get {xs : List PyVal} (hw : wellKeyedList xs = true) :
    ∀ (i : Nat) (h : i < xs.length), wellKeyed (xs.get ⟨i, h⟩) = true := by
  induction xs with
  | nil => intro i h; cases h
  | cons x xs ih =>
    simp only [wellKeyedList, Bool.and_eq_true] at hw
    intro i h
    cases i with
    | zero => exact hw.1
    | succ j => exact ih hw.2 j (Nat.lt_of_succ_lt_succ h)

theorem dictFind_mem {kvs : List (PyKey × PyVal)} {k : PyKey} {c : PyVal}
    (h : dictFind kvs k = some c) : (k, c) ∈ kvs := by
  induction kvs with
  | nil => cases h
  | cons kv rest ih =>
    obtain ⟨k0, v0⟩ := kv
    by_cases hb : k0.beq k = true
    · rw [dictFind, if_pos hb] at h
      have hk : k0 = k := (PyKey.beq_iff k0 k).mp hb
      subst hk
      injection h with h2
      subst h2
      exact List.mem_cons_self _ _
    · rw [dictFind, if_neg hb] at h
      exact List.mem_cons_of_mem _ (ih h)

/-- On a well-keyed tree, membership-style addressing upgrades to the
lookup-style addressing that the setter lemmas need. -/
theorem addresses_of_mem : ∀ (toks : List String) (v w : PyVal),
    wellKeyed v = true → addressesMem v toks w → addresses v toks w := by
  intro toks
  induction toks with
  | nil =>
    intro v w _ h
    simp only [addressesMem] at h
    simp only [addresses]
    exact h
  | cons p rest ih =>
    intro v w hwk h
    cases v with
    | dict kvs =>
      obtain ⟨k, c, hmem, hks, hrec⟩ := h
      simp only [wellKeyed, Bool.and_eq_true] at hwk
      have hk := wellKeyedKVs_mem hwk.2 hmem
      cases k with
      | s kstr =>
        have hkp : kstr = p := hks
        subst hkp
        obtain ⟨hk1, hk2⟩ := hk
        simp only [goodKey, Bool.and_eq_true, Bool.not_eq_true'] at hk1
        simp only [addresses]
        refine ⟨hk1.1, c, dictFind_of_mem_distinct hwk.1 hmem, ?_⟩
        exact ih c w hk2 hrec
      | i n => simp [goodKey] at hk
    | list xs =>
      obtain ⟨i, hi, hp, hrec⟩ := h
      simp only [addresses]
      exact ⟨i, hi, hp, ih _ w (wellKeyedList_get hwk i hi) hrec⟩
    | str a => cases h
    | num a => cases h
    | bool a => cases h
    | null => cases h

/-- On a well-keyed tree, every token of an addressing path is dot-free
(keys by hypothesis, list indices because decimal digits contain no dot). -/
theorem addresses_no_dot : ∀ (toks : List String) (v w : PyVal),
    wellKeyed v = true → addresses v toks w →
    ∀ t ∈ toks, '.' ∉ t.data := by
  intro toks
  induction toks with
  | nil => intro v w _ _ t ht; cases ht
  | cons p rest ih =>
    intro v w hwk h t ht
    cases v with
    | dict kvs =>
      obtain ⟨hnd, c, hfind, hrec⟩ := h
      have hmem := dictFind_mem hfind
      simp only [wellKeyed, Bool.and_eq_true] at hwk
      have hk := wellKeyedKVs_mem hwk.2 hmem
      obtain ⟨hk1, hk2⟩ := hk
      rcases List.mem_cons.mp ht with he | hm
      · subst he
        simp only [goodKey, Bool.and_eq_true, Bool.not_eq_true'] at hk1
        intro hc
        have hcon : t.data.contains '.' = true := List.elem_eq_true_of_mem hc
        rw [hk1.2] at hcon
        cases hcon
      · exact ih c w hk2 hrec t hm
    | list xs =>
      obtain ⟨i, hi, hp, hrec⟩ := h
      rcases List.mem_cons.mp ht with he | hm
      · subst he
        rw [hp]
        exact natStr_no_dot i
      · exact ih _ w (wellKeyedList_get hwk i hi) hrec t hm
    | str a => cases h
    | num a => cases h
    | bool a => cases h
    | null => cases h

end JsonTranslator

namespace JsonTranslator

theorem setValueAtPath_extract_self (T : PyVal) (kvs0 : List (PyKey × PyVal))
    (hT : T = PyVal.dict kvs0) (hwk : wellKeyed T = true) :
    ∀ pair ∈ extractStrings T, setValueAtPath T pair.1 (.str pair.2) = .ok T := by
  intro pair hp
  rcases extract_mem T [] [] pair hp with hm | ⟨toks, hptoks, ha⟩
  · cases hm
  · have ha2 := addresses_of_mem toks T _ hwk ha
    cases toks with
    | nil =>
      exfalso
      simp only [addresses] at ha2
      rw [hT] at ha2
      cases ha2
    | cons p rest =>
      have hnodot := addresses_no_dot _ T _ hwk ha2
      have hsplit : pySplitDot pair.1 = p :: rest := by
        rw [hptoks]
        simp only [List.nil_append]
        exact pySplitDot_pyJoinDot _ (by simp) (fun t ht => hnodot t ht)
      unfold setValueAtPath
      rw [hsplit]
      exact setTok_self rest p T pair.2 ha2

theorem applyTranslations_const (pairs : List (String × String)) (T : PyVal)
    (h : ∀ pair ∈ pairs, setValueAtPath T pair.1 (.str pair.2) = .ok T) :
    applyTranslations T pairs = .ok T := by
  induction pairs with
  | nil => rfl
  | cons pr rest ih =>
    obtain ⟨p, s⟩ := pr
    rw [applyTranslations, h (p, s) (List.mem_cons_self _ _)]
    exact ih (fun pair hp => h pair (List.mem_cons_of_mem _ hp))

/-- Claim C1 (amended).  For a JSON tree `T` whose root is an object and
whose dictionary keys (at every level) are distinct, contain no dot and are
not purely numeric, applying `_set_value_at_path(deepcopy(T), path, v)` for
every pair `(path, v)` produced by `_extract_strings_recursive(T)` (with
`v` the original leaf string) yields a tree equal to `T`.  Without the key
restriction the law fails (see the counterexample): a purely numeric string
key is written back as an `int` key, and a key containing a dot is split
into nested dictionaries. -/
theorem claim_C1_roundtrip (T : PyVal) (kvs0 : List (PyKey × PyVal))
    (hT : T = PyVal.dict kvs0) (hwk : wellKeyed T = true) :
    applyTranslations T (extractStrings T) = .ok T :=
  applyTranslations_const _ T (setValueAtPath_extract_self T kvs0 hT hwk)

/-- Witness for C1: the round trip on a concrete three-leaf tree with a
nested object and an array. -/
theorem claim_C1_roundtrip_witness :
    applyTranslations
      (.dict [(.s "greeting", .str "Hello"),
        (.s "buttons", .dict [(.s "save", .str "Save")]),
        (.s "items", .list [.str "a", .str "b"])])
      (extractStrings (.dict [(.s "greeting", .str "Hello"),
        (.s "buttons", .dict [(.s "save", .str "Save")]),
        (.s "items", .list [.str "a", .str "b"])]))
    = .ok (.dict [(.s "greeting", .str "Hello"),
        (.s "buttons", .dict [(.s "save", .str "Save")]),
        (.s "items", .list [.str "a", .str "b"])]) :=
  claim_C1_roundtrip _ _ rfl (by decide)

/-- Counterexample to C1 as stated: the object `{"0": "x"}` flattens to the
single pair `("0", "x")`, but writing it back stores the value under the
`int` key `0` next to the string key `"0"`, so the result is a two-entry
dictionary that is not Python-equal to the original tree. -/
theorem claim_C1_counterexample :
    applyTranslations (.dict [(.s "0", .str "x")])
      (extractStrings (.dict [(.s "0", .str "x")]))
      = .ok (.dict [(.s "0", .str "x"), (.i 0, .str "x")])
    ∧ pyEq (.dict [(.s "0", .str "x"), (.i 0, .str "x")])
      (.dict [(.s "0", .str "x")]) = false :=
  ⟨rfl, rfl⟩

end JsonTranslator

namespace JsonTranslator

/-! ## src/core/translation/translation_validator.py — `_validate_json_structure`

`compare_structure` walks the two trees in lockstep; `count_elements`
counts every node of the original tree.  The Python `type` check merges
`int`/`float` in this model (both are `PyVal.num`; the pipeline never
produces a float where the original held an int, so the distinction is
unreachable), while `bool` remains a distinct type as in Python. -/

/-- Tag distinguishing Python types as `type(x) != type(y)` does. -/
def typeTag : PyVal → Nat
  | .str _ => 0
  | .num _ => 1
  | .bool _ => 2
  | .null => 3
  | .list _ => 4
  | .dict _ => 5

/-- Rendering of `type(x)` inside the issue f-strings. -/
def pyTypeName : PyVal → String
  | .str _ => "<class \x27str\x27>"
  | .num _ => "<class \x27int\x27>"
  | .bool _ => "<class \x27bool\x27>"
  | .null => "<class \x27NoneType\x27>"
  | .list _ => "<class \x27list\x27>"
  | .dict _ => "<class \x27dict\x27>"

/-- Python `key in d`. -/
def dictHasKey (kvs : List (PyKey × PyVal)) (k : PyKey) : Bool :=
  (dictFind kvs k).isSome

/-- The child path `f"\x7bpath\x7d.\x7bkey\x7d" if path else key`. -/
def childPath (path : String) (k : PyKey) : String :=
  if path = "" then keyStr k else path ++ "." ++ keyStr k

/-- The `for key in trans` loop: extra keys, in translation insertion
order. -/
def compareDictExtra (okvs : List (PyKey × PyVal))
    (sub : List (PyKey × PyVal)) (path : String) : List String :=
  match sub with
  | [] => []
  | (k, _) :: rest =>
    (if dictHasKey okvs k then [] else ["Extra key at " ++ path ++ "." ++ keyStr k])
      ++ compareDictExtra okvs rest path

mutual

/-- Embedding of the inner `compare_structure(orig, trans, path)` of
`_validate_json_structure`: type mismatch short-circuits; dictionaries
report missing keys (walking the original) and extra keys (walking the
translation); lists report one issue on length mismatch, else recurse
index-wise; same-typed scalars contribute nothing. -/
def compareStructure (o t : PyVal) (path : String) : List String :=
  if typeTag o ≠ typeTag t then
    ["Type mismatch at " ++ path ++ ": " ++ pyTypeName o ++ " vs " ++ pyTypeName t]
  else
    match o, t with
    | .dict okvs, .dict tkvs =>
      compareDictOrig okvs tkvs path ++ compareDictExtra okvs tkvs path
    | .list os, .list ts =>
      if os.length ≠ ts.length then
        ["Array length mismatch at " ++ path ++ ": " ++ natStr os.length
          ++ " vs " ++ natStr ts.length]
      else compareItems os ts 0 path
    | _, _ => []

/-- The `for key in orig` loop: missing keys and recursion into shared
keys, in original insertion order. -/
def compareDictOrig (sub tkvs : List (PyKey × PyVal)) (path : String) :
    List String :=
  match sub with
  | [] => []
  | (k, ov) :: rest =>
    (match dictFind tkvs k with
     | none => ["Missing key at " ++ path ++ "." ++ keyStr k]
     | some tv => compareStructure ov tv (childPath path k))
    ++ compareDictOrig rest tkvs path

/-- The `for i, (orig_item, trans_item) in enumerate(zip(...))` loop
(called only when lengths agree). -/
def compareItems (os ts : List PyVal) (i : Nat) (path : String) : List String :=
  match os, ts with
  | o :: os, t :: ts =>
    compareStructure o t (path ++ "[" ++ natStr i ++ "]")
      ++ compareItems os ts (i + 1) path
  | _, _ => []

end

mutual

/-- Embedding of `count_elements`: every node counts itself once,
containers add their children. -/
def countElements : PyVal → Nat
  | .dict kvs => 1 + countElementsKVs kvs
  | .list xs => 1 + countElementsList xs
  | _ => 1

/-- Sum of `count_elements` over dictionary values. -/
def countElementsKVs : List (PyKey × PyVal) → Nat
  | [] => 0
  | (_, v) :: rest => countElements v + countElementsKVs rest

/-- Sum of `count_elements` over list items. -/
def countElementsList : List PyVal → Nat
  | [] => 0
  | x :: xs => countElements x + countElementsList xs

end

mutual

/-- Dictionaries at every level have pairwise distinct keys — automatic
for values produced by `json.load`, required of the association-list
model. -/
def distinctDeep : PyVal → Bool
  | .dict kvs => distinctKeysB kvs && distinctDeepKVs kvs
  | .list xs => distinctDeepList xs
  | _ => true

/-- `distinctDeep` over dictionary values. -/
def distinctDeepKVs : List (PyKey × PyVal) → Bool
  | [] => true
  | (_, v) :: rest => distinctDeep v && distinctDeepKVs rest

/-- `distinctDeep` over list items. -/
def distinctDeepList : List PyVal → Bool
  | [] => true
  | x :: xs => distinctDeep x && distinctDeepList xs

end

/-- Round half to even on an exact rational, approximating CPython
`round(x, 2)` on floats (ties at exactly `.xx5` are astronomically rare in
binary floats; on every other value the two agree). -/
def roundBankers (x : ℚ) : ℤ :=
  let f := ⌊x⌋
  if x - f < 1 / 2 then f
  else if 1 / 2 < x - f then f + 1
  else if Even f then f else f + 1

/-- Python `round(score, 2)`. -/
def pyRound2 (q : ℚ) : ℚ :=
  (roundBankers (100 * q) : ℚ) / 100

/-- Embedding of `_validate_json_structure(original, translated)`:
zero issues short-circuit to `(100.0, [])`, otherwise the documented
score formula over the element count of the original. -/
def validateJsonStructure (original translated : PyVal) : ℚ × List String :=
  let issues := compareStructure original translated ""
  if issues.isEmpty then (100, [])
  else
    let total := countElements original
    let score := max 0 (100 - ((issues.length : ℚ) / (total : ℚ)) * 100)
    (pyRound2 score, issues)

end JsonTranslator

namespace JsonTranslator

theorem distinctDeepKVs_mem {kvs : List (PyKey × PyVal)} {k : PyKey}
    {v : PyVal} (h : distinctDeepKVs kvs = true) (hm : (k, v) ∈ kvs) :
    distinctDeep v = true := by
  induction kvs with
  | nil => cases hm
  | cons kv rest ih =>
    obtain ⟨k0, v0⟩ := kv
    simp only [distinctDeepKVs, Bool.and_eq_true] at h
    rcases List.mem_cons.mp hm with he | hmem
    · injection he with h1 h2
      subst h2
      exact h.1
    · exact ih h.2 hmem

theorem distinctDeepList_mem {xs : List PyVal} {x : PyVal}
    (h : distinctDeepList xs = true) (hm : x ∈ xs) : distinctDeep x = true := by
  induction xs with
  | nil => cases hm
  | cons y ys ih =>
    simp only [distinctDeepList, Bool.and_eq_true] at h
    rcases List.mem_cons.mp hm with he | hmem
    · exact he ▸ h.1
    · exact ih h.2 hmem

theorem sizeOf_dict_val {kvs : List (PyKey × PyVal)} {k : PyKey} {v : PyVal}
    (h : (k, v) ∈ kvs) : sizeOf v < sizeOf (PyVal.dict kvs) := by
  have h1 := List.sizeOf_lt_of_mem h
  have h2 : sizeOf (k, v) = 1 + sizeOf k + sizeOf v := rfl
  have h3 : sizeOf (PyVal.dict kvs) = 1 + sizeOf kvs := by simp
  omega

theorem sizeOf_list_item {xs : List PyVal} {x : PyVal} (h : x ∈ xs) :
    sizeOf x < sizeOf (PyVal.list xs) := by
  have h1 := List.sizeOf_lt_of_mem h
  have h3 : sizeOf (PyVal.list xs) = 1 + sizeOf xs := by simp
  omega

theorem compareStructure_self_aux : ∀ (n : Nat) (v : PyVal), sizeOf v ≤ n →
    distinctDeep v = true → ∀ path, compareStructure v v path = [] := by
  intro n
  induction n with
  | zero =>
    intro v hv
    exfalso
    cases v <;> simp_arith at hv
  | succ n ih =>
    intro v hv hd path
    cases v with
    | dict kvs =>
      simp only [distinctDeep, Bool.and_eq_true] at hd
      rw [compareStructure, if_neg (by simp)]
      have horig : ∀ (sub : List (PyKey × PyVal)), (∀ kv ∈ sub, kv ∈ kvs) →
          compareDictOrig sub kvs path = [] := by
        intro sub
        induction sub with
        | nil => intro _; rfl
        | cons kv rest ihs =>
          intro hsub
          obtain ⟨k, ov⟩ := kv
          rw [compareDictOrig]
          rw [dictFind_of_mem_distinct hd.1 (hsub (k, ov) (List.mem_cons_self _ _))]
          show compareStructure ov ov (childPath path k)
            ++ compareDictOrig rest kvs path = []
          rw [ih ov (by
              have := sizeOf_dict_val (hsub (k, ov) (List.mem_cons_self _ _))
              omega)
            (distinctDeepKVs_mem hd.2 (hsub (k, ov) (List.mem_cons_self _ _))) _]
          rw [ihs (fun kv hkv => hsub kv (List.mem_cons_of_mem _ hkv))]
          rfl
      have hextra : ∀ (sub : List (PyKey × PyVal)), (∀ kv ∈ sub, kv ∈ kvs) →
          compareDictExtra kvs sub path = [] := by
        intro sub
        induction sub with
        | nil => intro _; rfl
        | cons kv rest ihs =>
          intro hsub
          obtain ⟨k, tv⟩ := kv
          rw [compareDictExtra]
          rw [if_pos (by
            unfold dictHasKey
            rw [dictFind_of_mem_distinct hd.1 (hsub (k, tv) (List.mem_cons_self _ _))]
            rfl)]
          rw [ihs (fun kv hkv => hsub kv (List.mem_cons_of_mem _ hkv))]
          rfl
      rw [horig kvs (fun _ h => h), hextra kvs (fun _ h => h)]
      rfl
    | list xs =>
      simp only [distinctDeep] at hd
      rw [compareStructure, if_neg (by simp)]
      rw [if_neg (by simp)]
      have hitems : ∀ (sub : List PyVal) (i : Nat), (∀ x ∈ sub, x ∈ xs) →
          compareItems sub sub i path = [] := by
        intro sub
        induction sub with
        | nil => intro i _; rfl
        | cons x rest ihs =>
          intro i hsub
          rw [compareItems]
          rw [ih x (by
              have := sizeOf_list_item (hsub x (List.mem_cons_self _ _))
              omega)
            (distinctDeepList_mem hd (hsub x (List.mem_cons_self _ _))) _]
          rw [ihs (i + 1) (fun y hy => hsub y (List.mem_cons_of_mem _ hy))]
          rfl
      exact hitems xs 0 (fun _ h => h)
    | str s => simp [compareStructure]
    | num q => simp [compareStructure]
    | bool b => simp [compareStructure]
    | null => simp [compareStructure]

theorem compareStructure_self (v : PyVal) (hd : distinctDeep v = true)
    (path : String) : compareStructure v v path = [] :=
  compareStructure_self_aux (sizeOf v) v (Nat.le_refl _) hd path

/-- Claim C3.  The structural comparison returns exactly `(100.0, [])`
when the recursive walk records no issues — in particular for any
(duplicate-key-free) tree compared against itself — and otherwise returns
`max(0, 100 − (issueCount / totalElementCount) × 100)` rounded to two
decimals, where `totalElementCount` recursively counts every node of the
original tree. -/
theorem claim_C3_structure_score (o t T : PyVal) (hT : distinctDeep T = true) :
    validateJsonStructure o t =
      (if compareStructure o t "" = [] then ((100 : ℚ), ([] : List String))
       else
        (pyRound2 (max 0 (100 -
            ((compareStructure o t "").length : ℚ) / ((countElements o : ℚ)) * 100)),
         compareStructure o t ""))
    ∧ validateJsonStructure T T = (100, []) := by
  constructor
  · unfold validateJsonStructure
    cases h : compareStructure o t "" with
    | nil => simp
    | cons issue rest => simp
  · unfold validateJsonStructure
    rw [compareStructure_self T hT ""]
    rfl

theorem roundBankers_int (z : ℤ) : roundBankers ((z : ℚ)) = z := by
  unfold roundBankers
  rw [Int.floor_intCast]
  rw [if_pos]
  rw [sub_self]
  norm_num

theorem pyRound2_fifty : pyRound2 50 = 50 := by
  unfold pyRound2
  rw [show (100 : ℚ) * 50 = ((5000 : ℤ) : ℚ) from by norm_num, roundBankers_int]
  norm_num

/-- Witness for C3 at concrete inputs: one missing key out of two nodes
scores 50.0 with one issue; the identical pair scores `(100.0, [])`. -/
theorem claim_C3_structure_score_witness :
    validateJsonStructure (.dict [(.s "a", .str "x")]) (.dict [])
      = (50, ["Missing key at .a"])
    ∧ validateJsonStructure (.dict [(.s "a", .str "x")])
        (.dict [(.s "a", .str "x")]) = (100, []) := by
  have h := claim_C3_structure_score (.dict [(.s "a", .str "x")]) (.dict [])
    (.dict [(.s "a", .str "x")]) (by decide)
  refine ⟨?_, ?_⟩
  · rw [h.1]
    rw [if_neg (by decide)]
    rw [show compareStructure (.dict [(.s "a", .str "x")]) (.dict []) ""
        = ["Missing key at .a"] from by decide]
    rw [show countElements (.dict [(.s "a", .str "x")]) = 2 from by decide]
    have hc : ((["Missing key at .a"].length : ℕ) : ℚ) / ((2 : ℕ) : ℚ) * 100
        = 50 := by
      push_cast
      norm_num
    rw [hc]
    rw [show (100 : ℚ) - 50 = 50 from by norm_num]
    rw [max_eq_right (by norm_num : (0 : ℚ) ≤ 50)]
    rw [pyRound2_fifty]
  · have h2 := claim_C3_structure_score (.dict [(.s "a", .str "x")])
      (.dict [(.s "a", .str "x")]) (.dict [(.s "a", .str "x")]) (by decide)
    exact h2.2

end JsonTranslator

namespace JsonTranslator

/-! ## The collaborator boundary

`call_openai` (imported from the external `util_call` module, the
out-of-scope text-completion collaborator) either raises, returns text
that `json.loads` rejects, or returns text parsing to a JSON value.  One
call is one `Resp`. -/

/-- Outcome of one collaborator call, as seen after `json.loads`. -/
inductive Resp where
  | raise
  | nonJson
  | val (v : PyVal)

/-- Decimal rendering of an integer. -/
def intStr (z : ℤ) : String :=
  if z < 0 then "-" ++ natStr z.natAbs else natStr z.natAbs

/-- Python `repr` of a dictionary key. -/
def keyRepr : PyKey → String
  | .s k => "\x27" ++ k ++ "\x27"
  | .i n => natStr n

mutual

/-- Python `str()` on parsed JSON values.  Only the string case (identity)
is ever relied upon by a theorem; container and number renderings are a
plausible approximation of CPython `repr` nesting. -/
def pyStr : PyVal → String
  | .str s => s
  | .num q => intStr q.num ++ (if q.den = 1 then "" else "/" ++ natStr q.den)
  | .bool b => if b then "True" else "False"
  | .null => "None"
  | .list xs => "[" ++ pyStrItems xs ++ "]"
  | .dict kvs => "\x7b" ++ pyStrKVs kvs ++ "\x7d"

/-- Python `repr()`, which differs from `str()` only by quoting strings. -/
def pyReprV : PyVal → String
  | .str s => "\x27" ++ s ++ "\x27"
  | .num q => intStr q.num ++ (if q.den = 1 then "" else "/" ++ natStr q.den)
  | .bool b => if b then "True" else "False"
  | .null => "None"
  | .list xs => "[" ++ pyStrItems xs ++ "]"
  | .dict kvs => "\x7b" ++ pyStrKVs kvs ++ "\x7d"

/-- Comma-joined `repr` of list items. -/
def pyStrItems : List PyVal → String
  | [] => ""
  | [x] => pyReprV x
  | x :: xs => pyReprV x ++ ", " ++ pyStrItems xs

/-- Comma-joined `repr` of dictionary entries. -/
def pyStrKVs : List (PyKey × PyVal) → String
  | [] => ""
  | [(k, v)] => keyRepr k ++ ": " ++ pyReprV v
  | (k, v) :: rest => keyRepr k ++ ": " ++ pyReprV v ++ ", " ++ pyStrKVs rest

end

/-! ## src/core/translation/translation_generator.py — `_generate_batch_options` -/

/-- `[[msg] * options_count] * len(strings)`. -/
def errFill (n c : Nat) (msg : String) : List (List String) :=
  List.replicate n (List.replicate c msg)

/-- Python `str(opt) if opt is not None else "Translation error"`. -/
def pyStrOrErr : PyVal → String
  | .null => "Translation error"
  | v => pyStr v

/-- The per-entry fixup loop of `_generate_batch_options`: non-lists are
replaced by an error row; short lists are padded by duplicating their
first element (`opts[0]` raises `IndexError` on an empty list, aborting
the whole batch); long lists are truncated; every element is then
stringified. -/
def fixInner (c : Nat) (e : PyVal) : Except Unit (List String) :=
  match e with
  | .list opts =>
    if opts.length < c then
      match opts with
      | [] => .error ()
      | o :: _ => .ok ((opts ++ List.replicate (c - opts.length) o).map pyStrOrErr)
    else if c < opts.length then .ok ((opts.take c).map pyStrOrErr)
    else .ok (opts.map pyStrOrErr)
  | _ => .ok (List.replicate c "Error: Invalid option format")

/-- The fixup loop over all response entries; the first `IndexError`
aborts (caught by the outer `except`). -/
def fixAll (c : Nat) : List PyVal → Except Unit (List (List String))
  | [] => .ok []
  | e :: rest =>
    match fixInner c e with
    | .error u => .error u
    | .ok l =>
      match fixAll c rest with
      | .error u => .error u
      | .ok ls => .ok (l :: ls)

/-- Embedding of `_generate_batch_options(strings, …, options_count)` for
one collaborator response: shape errors and exceptions produce fixed error
fills; a well-formed outer list is fixed per entry, padded with
`["Translation error"] * options_count` rows up to `len(strings)` — and
returned without truncation when longer. -/
def generateBatchOptions (strings : List String) (c : Nat) (resp : Resp) :
    List (List String) :=
  match resp with
  | .raise => errFill strings.length c "Error: API call failed"
  | .nonJson => errFill strings.length c "Error: Invalid JSON response"
  | .val v =>
    match v with
    | .dict kvs =>
      match dictFind kvs (.s "translations") with
      | none => errFill strings.length c "Error: Invalid response format"
      | some tr =>
        match tr with
        | .list entries =>
          match fixAll c entries with
          | .error _ => errFill strings.length c "Error: API call failed"
          | .ok fixed =>
            fixed ++ List.replicate (strings.length - fixed.length)
              (List.replicate c "Translation error")
        | _ => errFill strings.length c "Error: Invalid translations format"
    | _ => errFill strings.length c "Error: Invalid response format"

end JsonTranslator

namespace JsonTranslator

theorem fixInner_length {c : Nat} {e : PyVal} {l : List String}
    (h : fixInner c e = .ok l) : l.length = c := by
  cases e with
  | list opts =>
    simp only [fixInner] at h
    by_cases h1 : opts.length < c
    · rw [if_pos h1] at h
      cases opts with
      | nil => cases h
      | cons o os =>
        injection h with h2
        subst h2
        simp only [List.length_map, List.length_append, List.length_replicate]
        omega
    · rw [if_neg h1] at h
      by_cases h2 : c < opts.length
      · rw [if_pos h2] at h
        injection h with h3
        subst h3
        simp only [List.length_map, List.length_take]
        omega
      · rw [if_neg h2] at h
        injection h with h3
        subst h3
        simp only [List.length_map]
        omega
  | str s => simp only [fixInner] at h; injection h with h2; subst h2; simp
  | num q => simp only [fixInner] at h; injection h with h2; subst h2; simp
  | bool b => simp only [fixInner] at h; injection h with h2; subst h2; simp
  | null => simp only [fixInner] at h; injection h with h2; subst h2; simp
  | dict kvs => simp only [fixInner] at h; injection h with h2; subst h2; simp

theorem fixAll_ok {c : Nat} : ∀ {entries : List PyVal}
    {ls : List (List String)}, fixAll c entries = .ok ls →
    ls.length = entries.length ∧ ∀ l ∈ ls, l.length = c := by
  intro entries
  induction entries with
  | nil =>
    intro ls h
    injection h with h2
    subst h2
    exact ⟨rfl, fun l hl => absurd hl (List.not_mem_nil l)⟩
  | cons e rest ih =>
    intro ls h
    rw [fixAll] at h
    cases hfi : fixInner c e with
    | error u => rw [hfi] at h; cases h
    | ok l =>
      rw [hfi] at h
      cases hfa : fixAll c rest with
      | error u => rw [hfa] at h; cases h
      | ok ls2 =>
        rw [hfa] at h
        injection h with h2
        subst h2
        obtain ⟨hlen, hmem⟩ := ih hfa
        refine ⟨by simp [hlen], ?_⟩
        intro l2 hl2
        rcases List.mem_cons.mp hl2 with he | hm
        · exact he ▸ fixInner_length hfi
        · exact hmem l2 hm

theorem errFill_shape (n c : Nat) (msg : String) :
    (∀ l ∈ errFill n c msg, l.length = c) ∧ (errFill n c msg).length = n := by
  constructor
  · intro l hl
    rw [List.eq_of_mem_replicate hl]
    simp
  · simp [errFill]

/-- Claim C4 (amended).  Every row of the batch worker output has exactly
`options_count` strings; the number of rows is at least `len(strings)` and
equals it in every case except a well-formed response whose outer
`translations` list is longer than `len(strings)` — such a list is
returned without truncation.  (An empty inner list under `options_count >
0` raises `IndexError`, degrading the whole batch to the API-failure
fill of exactly `len(strings)` rows.) -/
theorem claim_C4_batch_shape (strings : List String) (c : Nat) (resp : Resp) :
    (∀ l ∈ generateBatchOptions strings c resp, l.length = c)
    ∧ strings.length ≤ (generateBatchOptions strings c resp).length
    ∧ ((generateBatchOptions strings c resp).length = strings.length
       ∨ ∃ kvs entries, resp = .val (.dict kvs)
          ∧ dictFind kvs (.s "translations") = some (.list entries)
          ∧ strings.length < entries.length
          ∧ (generateBatchOptions strings c resp).length = entries.length) := by
  have base : ∀ msg : String,
      (∀ l ∈ errFill strings.length c msg, l.length = c)
      ∧ strings.length ≤ (errFill strings.length c msg).length
      ∧ ((errFill strings.length c msg).length = strings.length
         ∨ ∃ kvs entries, resp = .val (.dict kvs)
            ∧ dictFind kvs (.s "translations") = some (.list entries)
            ∧ strings.length < entries.length
            ∧ (errFill strings.length c msg).length = entries.length) := by
    intro msg
    have h := errFill_shape strings.length c msg
    exact ⟨h.1, le_of_eq h.2.symm, Or.inl h.2⟩
  cases resp with
  | raise => exact base "Error: API call failed"
  | nonJson => exact base "Error: Invalid JSON response"
  | val v =>
    cases v with
    | dict kvs =>
      cases hf : dictFind kvs (.s "translations") with
      | none =>
        have heq : generateBatchOptions strings c (.val (.dict kvs))
            = errFill strings.length c "Error: Invalid response format" := by
          simp only [generateBatchOptions, hf]
        rw [heq]
        exact base "Error: Invalid response format"
      | some tr =>
        cases tr with
        | list entries =>
          cases hfa : fixAll c entries with
          | error u =>
            have heq : generateBatchOptions strings c (.val (.dict kvs))
                = errFill strings.length c "Error: API call failed" := by
              simp only [generateBatchOptions, hf, hfa]
            rw [heq]
            exact base "Error: API call failed"
          | ok fixed =>
            have heq : generateBatchOptions strings c (.val (.dict kvs))
                = fixed ++ List.replicate (strings.length - fixed.length)
                    (List.replicate c "Translation error") := by
              simp only [generateBatchOptions, hf, hfa]
            rw [heq]
            obtain ⟨hlen, hmem⟩ := fixAll_ok hfa
            refine ⟨?_, ?_, ?_⟩
            · intro l hl
              rcases List.mem_append.mp hl with hm | hm
              · exact hmem l hm
              · rw [List.eq_of_mem_replicate hm]
                simp
            · simp only [List.length_append, List.length_replicate]
              omega
            · by_cases hc : entries.length ≤ strings.length
              · left
                simp only [List.length_append, List.length_replicate]
                omega
              · right
                refine ⟨kvs, entries, rfl, hf, by omega, ?_⟩
                simp only [List.length_append, List.length_replicate]
                omega
        | str s =>
          have heq : generateBatchOptions strings c (.val (.dict kvs))
              = errFill strings.length c "Error: Invalid translations format" := by
            simp only [generateBatchOptions, hf]
          rw [heq]
          exact base "Error: Invalid translations format"
        | num q =>
          have heq : generateBatchOptions strings c (.val (.dict kvs))
              = errFill strings.length c "Error: Invalid translations format" := by
            simp only [generateBatchOptions, hf]
          rw [heq]
          exact base "Error: Invalid translations format"
        | bool b =>
          have heq : generateBatchOptions strings c (.val (.dict kvs))
              = errFill strings.length c "Error: Invalid translations format" := by
            simp only [generateBatchOptions, hf]
          rw [heq]
          exact base "Error: Invalid translations format"
        | null =>
          have heq : generateBatchOptions strings c (.val (.dict kvs))
              = errFill strings.length c "Error: Invalid translations format" := by
            simp only [generateBatchOptions, hf]
          rw [heq]
          exact base "Error: Invalid translations format"
        | dict kvs2 =>
          have heq : generateBatchOptions strings c (.val (.dict kvs))
              = errFill strings.length c "Error: Invalid translations format" := by
            simp only [generateBatchOptions, hf]
          rw [heq]
          exact base "Error: Invalid translations format"
    | str s => exact base "Error: Invalid response format"
    | num q => exact base "Error: Invalid response format"
    | bool b => exact base "Error: Invalid response format"
    | null => exact base "Error: Invalid response format"
    | list xs => exact base "Error: Invalid response format"

/-- Witness for C4: the amended shape theorem applied at a concrete batch
of two strings with a one-row response, and the concrete membership
hypothesis discharged. -/
theorem claim_C4_batch_shape_witness :
    (["x", "x"] : List String).length = 2
    ∧ (["a", "b"] : List String).length ≤
        (generateBatchOptions ["a", "b"] 2
          (.val (.dict [(.s "translations", .list [.list [.str "x"]])]))).length :=
  ⟨(claim_C4_batch_shape ["a", "b"] 2
      (.val (.dict [(.s "translations", .list [.list [.str "x"]])]))).1
    ["x", "x"] (by decide),
   (claim_C4_batch_shape ["a", "b"] 2
      (.val (.dict [(.s "translations", .list [.list [.str "x"]])]))).2.1⟩

/-- Counterexample to C4 as stated: with one input string and
`options_count = 1`, a response whose outer list has two entries is
returned with two rows — not "exactly n entries". -/
theorem claim_C4_counterexample :
    generateBatchOptions ["a"] 1
      (.val (.dict [(.s "translations", .list [.list [.str "x"], .list [.str "y"]])]))
      = [["x"], ["y"]]
    ∧ ([["x"], ["y"]] : List (List String)).length ≠ (["a"] : List String).length :=
  ⟨rfl, by decide⟩

end JsonTranslator


namespace JsonTranslator

/-! ## src/core/translation/translation_selector.py — `_select_best_batch`

One item of `batch_data` (built by `_select_best_translations`): a path,
the original string, and the option list from the OptionSet entry. -/

/-- One entry of the selection batch. -/
structure SelItem where
  path : String
  original : String
  options : List String

/-- The fallback `[item["options"][0] for item in batch_data]`: first
option of every item; an empty option list raises `IndexError`, which
propagates out of `_select_best_batch` (it is raised inside — or re-raised
by — the `except` handler). -/
def fallbackFirst : List SelItem → Except Unit (List String)
  | [] => .ok []
  | it :: rest =>
    match it.options with
    | [] => .error ()
    | o :: _ =>
      match fallbackFirst rest with
      | .error u => .error u
      | .ok outs => .ok (o :: outs)

/-- Embedding of `_select_best_batch(batch_data, …)` for one collaborator
response.  An empty batch raises `ValueError` before any call.  A
well-formed response (a dict with a `selections` list of the batch
length) is returned stringified without any membership check against the
options; every other response shape, a non-JSON response and a raising
call all fall back to the first option of every item.  (A non-dict parsed
response either fails the `in` test or raises a `TypeError` caught by the
same handler; both routes end in the same fallback.) -/
def selectBestBatch (batch : List SelItem) (resp : Resp) :
    Except Unit (List String) :=
  match batch with
  | [] => .error ()
  | _ :: _ =>
    match resp with
    | .raise => fallbackFirst batch
    | .nonJson => fallbackFirst batch
    | .val v =>
      match v with
      | .dict kvs =>
        match dictFind kvs (.s "selections") with
        | none => fallbackFirst batch
        | some sels =>
          match sels with
          | .list sl =>
            if sl.length = batch.length then .ok (sl.map pyStr)
            else fallbackFirst batch
          | _ => fallbackFirst batch
      | _ => fallbackFirst batch

theorem fallbackFirst_ok {batch : List SelItem} {outs : List String}
    (h : fallbackFirst batch = .ok outs) :
    outs = batch.map fun it => it.options.headD "" := by
  induction batch generalizing outs with
  | nil =>
    injection h with h2
    subst h2
    rfl
  | cons it rest ih =>
    rw [fallbackFirst] at h
    cases hopt : it.options with
    | nil => rw [hopt] at h; cases h
    | cons o os =>
      rw [hopt] at h
      cases hfb : fallbackFirst rest with
      | error u => rw [hfb] at h; cases h
      | ok outs2 =>
        rw [hfb] at h
        injection h with h2
        subst h2
        rw [List.map_cons, hopt, ih hfb]
        rfl

theorem fallbackFirst_of_nonempty {batch : List SelItem}
    (hopt : ∀ it ∈ batch, it.options ≠ []) :
    fallbackFirst batch = .ok (batch.map fun it => it.options.headD "") := by
  induction batch with
  | nil => rfl
  | cons it rest ih =>
    rw [fallbackFirst]
    cases h : it.options with
    | nil => exact absurd h (hopt it (List.mem_cons_self _ _))
    | cons o os =>
      rw [ih (fun x hx => hopt x (List.mem_cons_of_mem _ hx))]
      rw [List.map_cons, h]
      rfl

/-- Claim C5.  If the collaborator call raises, `_select_best_batch` on a
non-empty batch whose option lists are all non-empty returns exactly the
first option of each item's OptionSet entry. -/
theorem claim_C5_fallback_first (batch : List SelItem)
    (hne : batch ≠ [])
    (hopt : ∀ it ∈ batch, it.options ≠ []) :
    selectBestBatch batch .raise
      = .ok (batch.map fun it => it.options.headD "") := by
  cases batch with
  | nil => exact absurd rfl hne
  | cons b bs =>
    show fallbackFirst (b :: bs) = _
    exact fallbackFirst_of_nonempty hopt

/-- Witness for C5 on a concrete two-item batch. -/
theorem claim_C5_fallback_first_witness :
    selectBestBatch [⟨"p1", "o1", ["a", "b"]⟩, ⟨"p2", "o2", ["c"]⟩] .raise
      = .ok ["a", "c"] :=
  claim_C5_fallback_first [⟨"p1", "o1", ["a", "b"]⟩, ⟨"p2", "o2", ["c"]⟩]
    (List.cons_ne_nil _ _) (by decide)

/-- Claim C6 (amended).  A successful `_select_best_batch` result is
either the first-option fallback (taken on every error and shape
violation) or the stringified `selections` array of a well-formed
response — which the code stores without checking membership in the
OptionSet entry, so the stored value need not be one of the options. -/
theorem claim_C6_selection_source (batch : List SelItem) (resp : Resp)
    (out : List String) (h : selectBestBatch batch resp = .ok out) :
    out = (batch.map fun it => it.options.headD "")
    ∨ ∃ kvs sl, resp = .val (.dict kvs)
        ∧ dictFind kvs (.s "selections") = some (.list sl)
        ∧ sl.length = batch.length ∧ out = sl.map pyStr := by
  cases batch with
  | nil =>
    simp only [selectBestBatch] at h
    exact Except.noConfusion h
  | cons b bs =>
    cases resp with
    | raise =>
      simp only [selectBestBatch] at h
      exact Or.inl (fallbackFirst_ok h)
    | nonJson =>
      simp only [selectBestBatch] at h
      exact Or.inl (fallbackFirst_ok h)
    | val v =>
      cases v with
      | dict kvs =>
        simp only [selectBestBatch] at h
        cases hf : dictFind kvs (.s "selections") with
        | none =>
          rw [hf] at h
          exact Or.inl (fallbackFirst_ok h)
        | some sels =>
          rw [hf] at h
          cases sels with
          | list sl =>
            have h2 : (if sl.length = (b :: bs).length
                then Except.ok (sl.map pyStr)
                else fallbackFirst (b :: bs)) = Except.ok out := h
            by_cases hlen : sl.length = (b :: bs).length
            · rw [if_pos hlen] at h2
              injection h2 with h3
              exact Or.inr ⟨kvs, sl, rfl, hf, hlen, h3.symm⟩
            · rw [if_neg hlen] at h2
              exact Or.inl (fallbackFirst_ok h2)
          | str s => exact Or.inl (fallbackFirst_ok h)
          | num q => exact Or.inl (fallbackFirst_ok h)
          | bool b2 => exact Or.inl (fallbackFirst_ok h)
          | null => exact Or.inl (fallbackFirst_ok h)
          | dict kvs2 => exact Or.inl (fallbackFirst_ok h)
      | str s =>
        simp only [selectBestBatch] at h
        exact Or.inl (fallbackFirst_ok h)
      | num q =>
        simp only [selectBestBatch] at h
        exact Or.inl (fallbackFirst_ok h)
      | bool b2 =>
        simp only [selectBestBatch] at h
        exact Or.inl (fallbackFirst_ok h)
      | null =>
        simp only [selectBestBatch] at h
        exact Or.inl (fallbackFirst_ok h)
      | list xs =>
        simp only [selectBestBatch] at h
        exact Or.inl (fallbackFirst_ok h)

/-- Witness for C6 (amended): the dichotomy applied to a concrete
successful run, discharging the success hypothesis. -/
theorem claim_C6_selection_source_witness :
    (["z"] : List String) = ([⟨"p", "o", ["a", "b"]⟩] : List SelItem).map
        (fun it => it.options.headD "")
    ∨ ∃ kvs sl, (Resp.val (.dict [(.s "selections", .list [.str "z"])]))
          = .val (.dict kvs)
        ∧ dictFind kvs (.s "selections") = some (.list sl)
        ∧ sl.length = ([⟨"p", "o", ["a", "b"]⟩] : List SelItem).length
        ∧ (["z"] : List String) = sl.map pyStr :=
  claim_C6_selection_source [⟨"p", "o", ["a", "b"]⟩]
    (.val (.dict [(.s "selections", .list [.str "z"])])) ["z"] rfl

/-- Counterexample to C6 as stated: a well-formed response selecting the
string `"zzz"` is stored even though it is not an element of the item's
OptionSet entry `["a", "b"]`. -/
theorem claim_C6_counterexample :
    selectBestBatch [⟨"p", "o", ["a", "b"]⟩]
      (.val (.dict [(.s "selections", .list [.str "zzz"])]))
      = .ok ["zzz"]
    ∧ "zzz" ∉ (["a", "b"] : List String) :=
  ⟨rfl, by decide⟩

end JsonTranslator

namespace JsonTranslator

/-! ## src/core/translation/translation_refiner.py — `_refine_batch` -/

/-- One entry of the refinement batch (`path`, `original`,
pre-refinement `translation`; the structural `ValueError` validations of
the code hold by construction for values of this type). -/
structure RefItem where
  path : String
  original : String
  translation : String

/-- One output entry of `_refine_batch`. -/
structure RefOut where
  path : String
  refined : String

/-- The per-entry shape dispatch of `_refine_batch`, exactly as coded:
dicts are probed for `translation`, then `refined`, then
`refined_translation` (the fourth `path`-carrying branch of the source is
unreachable, because any dict carrying one of the three keys was already
consumed; it is kept here for fidelity), plain strings are taken as-is,
anything else falls back to the pre-refinement translation. -/
def refineEntryCode (it : RefItem) (e : PyVal) : RefOut :=
  match e with
  | .dict kvs =>
    match dictFind kvs (.s "translation") with
    | some tv => ⟨it.path, pyStr tv⟩
    | none =>
      match dictFind kvs (.s "refined") with
      | some tv => ⟨it.path, pyStr tv⟩
      | none =>
        match dictFind kvs (.s "refined_translation") with
        | some tv => ⟨it.path, pyStr tv⟩
        | none =>
          if dictHasKey kvs (.s "path")
              && (dictHasKey kvs (.s "translation")
                || dictHasKey kvs (.s "refined")
                || dictHasKey kvs (.s "refined_translation")) then
            ⟨pyStr ((dictFind kvs (.s "path")).getD .null), it.translation⟩
          else ⟨it.path, it.translation⟩
  | .str s => ⟨it.path, s⟩
  | _ => ⟨it.path, it.translation⟩

/-- Embedding of the core `_refine_batch(batch, …)` for one collaborator
response: empty batches raise `ValueError`; a missing or non-list
`refined_translations`, a length mismatch, a non-JSON response and a
raising call all fall back to the original translations; a well-formed
response is zipped entry-wise through the shape dispatch. -/
def refineBatch (batch : List RefItem) (resp : Resp) :
    Except Unit (List RefOut) :=
  match batch with
  | [] => .error ()
  | _ :: _ =>
    match resp with
    | .raise => .ok (batch.map fun it => ⟨it.path, it.translation⟩)
    | .nonJson => .ok (batch.map fun it => ⟨it.path, it.translation⟩)
    | .val v =>
      match v with
      | .dict kvs =>
        match dictFind kvs (.s "refined_translations") with
        | none => .ok (batch.map fun it => ⟨it.path, it.translation⟩)
        | some r =>
          match r with
          | .list rl =>
            if rl.length = batch.length then
              .ok (List.zipWith refineEntryCode batch rl)
            else .ok (batch.map fun it => ⟨it.path, it.translation⟩)
          | _ => .ok (batch.map fun it => ⟨it.path, it.translation⟩)
      | _ => .ok (batch.map fun it => ⟨it.path, it.translation⟩)

/-- The refined value as claim C7 words it: a plain string yields that
string, an object carrying the refined text under `translation`,
`refined` or `refined_translation` yields that text (stringified), and
every other shape yields the pre-refinement translation. -/
def refinedValueSpec (e : PyVal) (fallback : String) : String :=
  match e with
  | .str s => s
  | .dict kvs =>
    match dictFind kvs (.s "translation") with
    | some tv => pyStr tv
    | none =>
      match dictFind kvs (.s "refined") with
      | some tv => pyStr tv
      | none =>
        match dictFind kvs (.s "refined_translation") with
        | some tv => pyStr tv
        | none => fallback
  | _ => fallback

theorem refineEntryCode_spec (it : RefItem) (e : PyVal) :
    refineEntryCode it e = ⟨it.path, refinedValueSpec e it.translation⟩ := by
  cases e with
  | dict kvs =>
    rw [refineEntryCode, refinedValueSpec]
    cases h1 : dictFind kvs (.s "translation") with
    | some tv => rfl
    | none =>
      cases h2 : dictFind kvs (.s "refined") with
      | some tv => rfl
      | none =>
        cases h3 : dictFind kvs (.s "refined_translation") with
        | some tv => rfl
        | none =>
          rw [if_neg]
          intro hc
          simp only [Bool.and_eq_true, Bool.or_eq_true] at hc
          rcases hc.2 with (hk | hk) | hk <;>
            (unfold dictHasKey at hk
             first
              | (rw [h1] at hk; cases hk)
              | (rw [h2] at hk; cases hk)
              | (rw [h3] at hk; cases hk))
  | str s => rfl
  | num q => rfl
  | bool b => rfl
  | null => rfl
  | list xs => rfl

/-- Claim C7.  For every well-formed Refine response — a
`refined_translations` list of the batch length — each entry yields the
text it carries (plain string, or object under `translation` / `refined`
/ `refined_translation`), and every other entry shape yields the
pre-refinement translation for its item. -/
theorem claim_C7_refine_shapes (batch : List RefItem)
    (kvs : List (PyKey × PyVal)) (rl : List PyVal)
    (hne : batch ≠ [])
    (hfind : dictFind kvs (.s "refined_translations") = some (.list rl))
    (hlen : rl.length = batch.length) :
    refineBatch batch (.val (.dict kvs))
      = .ok (List.zipWith
          (fun it e => RefOut.mk it.path (refinedValueSpec e it.translation))
          batch rl) := by
  cases batch with
  | nil => exact absurd rfl hne
  | cons b bs =>
    simp only [refineBatch]
    rw [hfind]
    have h2 : (if rl.length = (b :: bs).length
        then (Except.ok (List.zipWith refineEntryCode (b :: bs) rl)
          : Except Unit (List RefOut))
        else Except.ok ((b :: bs).map fun it => RefOut.mk it.path it.translation))
        = Except.ok (List.zipWith refineEntryCode (b :: bs) rl) := if_pos hlen
    refine Eq.trans h2 ?_
    congr 1
    clear h2 hfind hlen hne
    induction rl generalizing b bs with
    | nil => rfl
    | cons e es ih =>
      rw [List.zipWith_cons_cons, List.zipWith_cons_cons, refineEntryCode_spec]
      cases bs with
      | nil => rfl
      | cons b2 bs2 => rw [ih b2 bs2]

/-- Witness for C7: a concrete batch exercising the plain-string shape,
the `refined` object shape, and an unrecognized shape. -/
theorem claim_C7_refine_shapes_witness :
    refineBatch
      [⟨"p1", "o1", "t1"⟩, ⟨"p2", "o2", "t2"⟩, ⟨"p3", "o3", "t3"⟩]
      (.val (.dict [(.s "refined_translations",
        .list [.str "r1", .dict [(.s "refined", .str "r2")], .num 7])]))
      = .ok [⟨"p1", "r1"⟩, ⟨"p2", "r2"⟩, ⟨"p3", "t3"⟩] := by
  rw [claim_C7_refine_shapes
    [⟨"p1", "o1", "t1"⟩, ⟨"p2", "o2", "t2"⟩, ⟨"p3", "o3", "t3"⟩]
    [(.s "refined_translations",
      .list [.str "r1", .dict [(.s "refined", .str "r2")], .num 7])]
    [.str "r1", .dict [(.s "refined", .str "r2")], .num 7]
    (List.cons_ne_nil _ _) rfl rfl]
  rfl

end JsonTranslator

namespace JsonTranslator

/-! ## src/core/translation/translation_validator.py — quality scoring

`_validate_translation_batch`, its heuristic fallback
(`_is_version_number`, `_is_technical_identifier`,
`_calculate_fallback_score`, `_generate_category_scores`) and
`_validate_translation_quality`.  `random.uniform(-0.05, 0.05)` draws are
abstracted as an oracle `rand : Nat → ℚ`; no theorem depends on its
values.  Character classes (`\\d`, `\\s`, `[a-z]`, `str.lower`) are the
ASCII classes, which agree with CPython on the ASCII strings involved. -/

/-- One extracted (original, translation) string pair. -/
structure Pair where
  path : String
  original : String
  translation : String

mutual

/-- The inner `extract_string_pairs(orig, trans, path)`: shared string
leaves are collected; dicts recurse on the keys of the original present in
the translation; lists recurse index-wise up to the shorter length
(`zip`); mixed types contribute nothing. -/
def extractPairs : PyVal → PyVal → String → List Pair
  | .str o, .str t, path => [⟨path, o, t⟩]
  | .dict okvs, .dict tkvs, path => extractPairsKVs okvs tkvs path
  | .list os, .list ts, path => extractPairsItems os ts 0 path
  | _, _, _ => []

/-- The `for key in orig: if key in trans` loop of `extract_string_pairs`. -/
def extractPairsKVs : List (PyKey × PyVal) → List (PyKey × PyVal) → String →
    List Pair
  | [], _, _ => []
  | (k, ov) :: rest, tkvs, path =>
    (match dictFind tkvs k with
     | some tv => extractPairs ov tv (childPath path k)
     | none => []) ++ extractPairsKVs rest tkvs path

/-- The `enumerate(zip(orig, trans))` loop of `extract_string_pairs`. -/
def extractPairsItems : List PyVal → List PyVal → Nat → String → List Pair
  | o :: os, t :: ts, i, path =>
    extractPairs o t (path ++ "[" ++ natStr i ++ "]")
      ++ extractPairsItems os ts (i + 1) path
  | _, _, _, _ => []

end

/-- Python regex `^\\d+\\.\\d+\\.\\d+$` (`_is_version_number`): exactly
three non-empty all-digit groups joined by dots. -/
def isVersionNumber (s : String) : Bool :=
  match splitDotChars s.data with
  | [a, b, c] =>
    !a.isEmpty && a.all Char.isDigit && !b.isEmpty && b.all Char.isDigit
      && !c.isEmpty && c.all Char.isDigit
  | _ => false

/-- `_is_technical_identifier`: any of `^[A-Z_]+$`, `^[a-z][a-zA-Z0-9]*$`,
`^[a-z_]+$`, `^[A-Z][a-zA-Z0-9]*$`. -/
def isTechnicalIdentifier (s : String) : Bool :=
  (!s.data.isEmpty && s.data.all fun c => c.isUpper || c = '_')
  || (match s.data with
      | c :: rest => c.isLower && rest.all Char.isAlphanum
      | [] => false)
  || (!s.data.isEmpty && s.data.all fun c => c.isLower || c = '_')
  || (match s.data with
      | c :: rest => c.isUpper && rest.all Char.isAlphanum
      | [] => false)

/-- Python `\\s` on the ASCII range. -/
def pyWhitespace (c : Char) : Bool :=
  c = ' ' || c = '\t' || c = '\n' || c = '\x0d' || c = '\x0c' || c = '\x0b'

/-- Number of words of Python `str.split()` (maximal non-whitespace runs). -/
def wordCountAux : List Char → Bool → Nat
  | [], _ => 0
  | c :: rest, inWord =>
    if pyWhitespace c then wordCountAux rest false
    else (if inWord then 0 else 1) + wordCountAux rest true

/-- `len(s.split())`. -/
def wordCount (s : String) : Nat :=
  wordCountAux s.data false

/-- Python `set(...)` cardinality support: keep the last occurrence of
each character (set semantics; only cardinalities are consumed). -/
def dedup : List Char → List Char
  | [] => []
  | c :: rest => if rest.contains c then dedup rest else c :: dedup rest

/-- Size of the intersection of two character sets. -/
def interCount (a b : List Char) : Nat :=
  ((dedup a).filter fun c => b.contains c).length

/-- Characters matched by `[^a-zA-Z0-9\\s]`. -/
def isSpecialChar (c : Char) : Bool :=
  !c.isAlphanum && !pyWhitespace c

/-- Embedding of `_calculate_fallback_score(original, translation)`:
length-ratio (30%), word-ratio (20%), special-character preservation
(20%) and lower-cased character overlap (30%), clamped to [0, 100].
`min(trans/orig, orig/trans)` raises `ZeroDivisionError` when the
original is non-empty but the translation has zero characters (or zero
words); that exception is the `.error` case. -/
def calcFallbackScore (original translation : String) : Except Unit ℚ :=
  let ol := original.data
  let tl := translation.data
  if 0 < ol.length ∧ tl.length = 0 then .error ()
  else if 0 < wordCount original ∧ wordCount translation = 0 then .error ()
  else
    let lengthRatio : ℚ :=
      if 0 < ol.length then
        min ((tl.length : ℚ) / (ol.length : ℚ)) ((ol.length : ℚ) / (tl.length : ℚ))
      else 0
    let lengthScore := lengthRatio * 30
    let wordRatio : ℚ :=
      if 0 < wordCount original then
        min ((wordCount translation : ℚ) / (wordCount original : ℚ))
          ((wordCount original : ℚ) / (wordCount translation : ℚ))
      else 0
    let wordScore := wordRatio * 20
    let origSpecial := dedup (ol.filter isSpecialChar)
    let transSpecial := dedup (tl.filter isSpecialChar)
    let specialScore : ℚ :=
      if origSpecial.isEmpty then 20
      else (interCount origSpecial transSpecial : ℚ) / (origSpecial.length : ℚ) * 20
    let origChars := dedup (ol.map Char.toLower)
    let transChars := dedup (tl.map Char.toLower)
    let similarity : ℚ :=
      if origChars.isEmpty then 0
      else (interCount origChars transChars : ℚ) / (origChars.length : ℚ)
    let similarityScore := similarity * 30
    .ok (min 100 (max 0 (lengthScore + wordScore + specialScore + similarityScore)))

/-- Python `s1 in s2` substring test. -/
def containsSubstr (s sub : String) : Bool :=
  s.data.tails.any fun t => sub.data.isPrefixOf t

/-- Embedding of `_generate_category_scores(score, path, original,
translation)`: base scores per category, content-type adjustment, then a
random ±5% variation per category and rounding. -/
def genCategoryScores (score : ℚ) (original : String)
    (rand : Nat → ℚ) : List (String × ℚ) :=
  let base : List (String × ℚ) :=
    if isVersionNumber original || isTechnicalIdentifier original then
      [("accuracy", score), ("fluency", score * (8 / 10)),
       ("terminology", score * (98 / 100)),
       ("cultural_appropriateness", score * (8 / 10)), ("formatting", score)]
    else if ["%s", "\x7b0\x7d", "\x7b1\x7d", "$\x7b", "\x7b\x7b"].any
        (fun pat => containsSubstr original pat) then
      [("accuracy", score * (98 / 100)), ("fluency", score * (102 / 100)),
       ("terminology", score * (98 / 100)),
       ("cultural_appropriateness", score * (99 / 100)), ("formatting", score)]
    else
      [("accuracy", score * (95 / 100)), ("fluency", score * (105 / 100)),
       ("terminology", score * (98 / 100)),
       ("cultural_appropriateness", score * (105 / 100)),
       ("formatting", score * (103 / 100))]
  (base.zipWith (fun kv i => (kv.1, pyRound2 (kv.2 * (1 + rand i))))
    (List.range 5))

end JsonTranslator

namespace JsonTranslator

/-- One detailed assessment entry of `_validate_translation_batch`. -/
structure Detail where
  path : String
  score : ℚ
  comments : PyVal
  categories : PyVal

/-- Python `isinstance(score, (int, float))` conversion (`bool` is an
`int` subclass, so `True`/`False` count as 1/0). -/
def scoreVal : PyVal → Option ℚ
  | .num q => some q
  | .bool b => some (if b then 1 else 0)
  | _ => none

/-- The score validation loop: every entry numeric and within [0, 100],
else `ValueError`. -/
def parseScores : List PyVal → Option (List ℚ)
  | [] => some []
  | v :: rest =>
    match scoreVal v with
    | none => none
    | some q =>
      if 0 ≤ q ∧ q ≤ 100 then (parseScores rest).map (q :: ·) else none

/-- The inline category generation of the well-formed arm (each of the
five categories gets its own `random.uniform` draw). -/
def genCategoriesInline (score : ℚ) (rand : Nat → ℚ) : List (String × ℚ) :=
  [("accuracy", pyRound2 (score * (95 / 100 + rand 0))),
   ("fluency", pyRound2 (score * (98 / 100 + rand 1))),
   ("terminology", pyRound2 (score * (97 / 100 + rand 2))),
   ("cultural_appropriateness", pyRound2 (score * (99 / 100 + rand 3))),
   ("formatting", pyRound2 (score * (1 + rand 4)))]

/-- Association list of rational category scores as a `PyVal` dict. -/
def catsToPyVal (cats : List (String × ℚ)) : PyVal :=
  .dict (cats.map fun kv => (PyKey.s kv.1, PyVal.num kv.2))

/-- One item of the heuristic fallback arm of
`_validate_translation_batch`: version numbers and technical identifiers
score 100 on identity and 0 otherwise; other text goes through
`_calculate_fallback_score`, whose `ZeroDivisionError` aborts the
fallback (re-raised as `RuntimeError`). -/
def fallbackItem (i : Nat) (p : Pair) (rand : Nat → ℚ) :
    Except Unit (ℚ × Detail) :=
  let computed : Except Unit (ℚ × String) :=
    if isVersionNumber p.original then
      .ok (if p.original = p.translation then 100 else 0,
        "Version number validation")
    else if isTechnicalIdentifier p.original then
      .ok (if p.original = p.translation then 100 else 0,
        "Technical identifier validation")
    else
      match calcFallbackScore p.original p.translation with
      | .error u => .error u
      | .ok s => .ok (s, "Combined validation metrics")
  match computed with
  | .error u => .error u
  | .ok sc =>
    .ok (sc.1, ⟨p.path, sc.1, .str sc.2,
      catsToPyVal (genCategoryScores sc.1 p.original fun j => rand (5 * i + j))⟩)

/-- The fallback loop over the whole batch. -/
def fallbackArmGo : List Pair → Nat → (Nat → ℚ) →
    Except Unit (List ℚ × List Detail)
  | [], _, _ => .ok ([], [])
  | p :: rest, i, rand =>
    match fallbackItem i p rand with
    | .error u => .error u
    | .ok sd =>
      match fallbackArmGo rest (i + 1) rand with
      | .error u => .error u
      | .ok rests => .ok (sd.1 :: rests.1, sd.2 :: rests.2)

/-- The `except Exception` arm of `_validate_translation_batch`. -/
def fallbackArm (batch : List Pair) (rand : Nat → ℚ) :
    Except Unit (List ℚ × List Detail) :=
  fallbackArmGo batch 0 rand

/-- `response_data.get(key, \x7b\x7d)` expecting a dict: a missing key
yields the empty dict; a present non-dict value makes the later
`.get(str(i))` / `str(i) in …` calls raise, landing in the fallback arm
(modelled as `none`). -/
def getObjDefault (kvs : List (PyKey × PyVal)) (key : String) :
    Option (List (PyKey × PyVal)) :=
  match dictFind kvs (.s key) with
  | none => some []
  | some (.dict d) => some d
  | some _ => none

/-- The detail-building loop of the well-formed arm. -/
def buildDetails (cats comms : List (PyKey × PyVal)) (rand : Nat → ℚ) :
    List Pair → List ℚ → Nat → List Detail
  | p :: ps, q :: qs, i =>
    ⟨p.path, q,
     (dictFind comms (.s (natStr i))).getD (.str "No comment provided"),
     (match dictFind cats (.s (natStr i)) with
      | some cv => cv
      | none => catsToPyVal (genCategoriesInline q fun j => rand (5 * i + j)))⟩
      :: buildDetails cats comms rand ps qs (i + 1)
  | _, _, _ => []

/-- Embedding of `_validate_translation_batch(batch, …)` for one
collaborator response.  An empty batch returns `([], [])` before any
call.  A response that does not parse as JSON is re-raised as
`RuntimeError` (`.error`), unlike every other failure, which goes through
the heuristic fallback arm. -/
def validateTranslationBatch (batch : List Pair) (resp : Resp)
    (rand : Nat → ℚ) : Except Unit (List ℚ × List Detail) :=
  match batch with
  | [] => .ok ([], [])
  | _ :: _ =>
    match resp with
    | .raise => fallbackArm batch rand
    | .nonJson => .error ()
    | .val v =>
      match v with
      | .dict kvs =>
        match dictFind kvs (.s "scores") with
        | none => fallbackArm batch rand
        | some sv =>
          match sv with
          | .list sl =>
            if sl.length = batch.length then
              match parseScores sl with
              | none => fallbackArm batch rand
              | some qs =>
                match getObjDefault kvs "categories",
                    getObjDefault kvs "comments" with
                | some cats, some comms =>
                  .ok (qs, buildDetails cats comms rand batch qs 0)
                | _, _ => fallbackArm batch rand
              else fallbackArm batch rand
          | _ => fallbackArm batch rand
      | _ => fallbackArm batch rand

end JsonTranslator

namespace JsonTranslator

/-- Batch slicing `range(0, len(items), batch_size)` with fuel for
structural reduction (`batch_size = 0` raises `ValueError` in Python;
theorems assume `0 < batch_size`). -/
def chunksAux {α : Type} : Nat → Nat → List α → List (List α)
  | 0, _, _ => []
  | _ + 1, _, [] => []
  | fuel + 1, b, x :: xs => (x :: xs.take (b - 1)) :: chunksAux fuel b (xs.drop (b - 1))

/-- `items[i:i+batch_size]` slices in order. -/
def chunks {α : Type} (b : Nat) (l : List α) : List (List α) :=
  chunksAux l.length b l

/-- One entry of `sentence_scores`. -/
structure SentenceScore where
  path : String
  original : String
  translation : String
  score : ℚ
  comments : PyVal

/-- The running category sums and counts (`category_scores` /
`category_counts`, keyed by the five fixed names). -/
structure CatAcc where
  accuracy : ℚ
  accuracyN : Nat
  fluency : ℚ
  fluencyN : Nat
  terminology : ℚ
  terminologyN : Nat
  cultural : ℚ
  culturalN : Nat
  formatting : ℚ
  formattingN : Nat

/-- All-zero accumulator. -/
def emptyCatAcc : CatAcc := ⟨0, 0, 0, 0, 0, 0, 0, 0, 0, 0⟩

/-- `category_scores[name] += q; category_counts[name] += 1`. -/
def bumpCat (acc : CatAcc) (name : String) (q : ℚ) : CatAcc :=
  if name = "accuracy" then
    { acc with accuracy := acc.accuracy + q, accuracyN := acc.accuracyN + 1 }
  else if name = "fluency" then
    { acc with fluency := acc.fluency + q, fluencyN := acc.fluencyN + 1 }
  else if name = "terminology" then
    { acc with terminology := acc.terminology + q, terminologyN := acc.terminologyN + 1 }
  else if name = "cultural_appropriateness" then
    { acc with cultural := acc.cultural + q, culturalN := acc.culturalN + 1 }
  else
    { acc with formatting := acc.formatting + q, formattingN := acc.formattingN + 1 }

/-- One step of `for category, category_score in categories.items()`:
names outside the five are skipped; a matching name with a non-numeric
score raises `TypeError` on `+=`, which nothing catches. -/
def addCat (acc : CatAcc) (kv : PyKey × PyVal) : Except Unit CatAcc :=
  match kv.1 with
  | .i _ => .ok acc
  | .s name =>
    if name = "accuracy" ∨ name = "fluency" ∨ name = "terminology"
        ∨ name = "cultural_appropriateness" ∨ name = "formatting" then
      match scoreVal kv.2 with
      | some q => .ok (bumpCat acc name q)
      | none => .error ()
    else .ok acc

/-- The category loop over one assessment. -/
def addCats (acc : CatAcc) : List (PyKey × PyVal) → Except Unit CatAcc
  | [] => .ok acc
  | kv :: rest =>
    match addCat acc kv with
    | .error u => .error u
    | .ok a2 => addCats a2 rest

/-- `assessment.get("categories", \x7b\x7d).items()`: a non-dict value
raises `AttributeError`, which nothing catches. -/
def addDetailCats (acc : CatAcc) (cats : PyVal) : Except Unit CatAcc :=
  match cats with
  | .dict kvs => addCats acc kvs
  | _ => .error ()

/-- The per-batch accumulator of `_validate_translation_quality`. -/
structure QAcc where
  total : ℚ
  sentences : List SentenceScore
  cats : CatAcc

/-- The `for j, (pair, score) in enumerate(zip(batch, batch_scores))`
loop: sentence entries appended in order, category sums accumulated. -/
def procItems (acc : QAcc) : List Pair → List ℚ → List Detail →
    Except Unit QAcc
  | p :: ps, q :: qs, d :: ds =>
    match addDetailCats acc.cats d.categories with
    | .error u => .error u
    | .ok c2 =>
      procItems { acc with sentences := acc.sentences ++ [⟨p.path, p.original, p.translation, q, d.comments⟩], cats := c2 } ps qs ds
  | _, _, _ => .ok acc

/-- The batched validation loop; the second component counts collaborator
calls (one per batch reached). -/
def qualityLoop (collab : Nat → Resp) (rand : Nat → ℚ) :
    List (List Pair) → Nat → QAcc → Except Unit QAcc × Nat
  | [], k, acc => (.ok acc, k)
  | batch :: rest, k, acc =>
    match validateTranslationBatch batch (collab k)
        (fun j => rand (Nat.pair k j)) with
    | .error u => (.error u, k + 1)
    | .ok sd =>
      match procItems { acc with total := acc.total + sd.1.sum }
          batch sd.1 sd.2 with
      | .error u => (.error u, k + 1)
      | .ok acc2 => qualityLoop collab rand rest (k + 1) acc2

/-- The category averages of the quality details: per-category rounded
mean when any category was seen, the estimated spread around the average
score when none was. -/
def catAverages (c : CatAcc) (avg : ℚ) : List (String × ℚ) :=
  if c.accuracyN + c.fluencyN + c.terminologyN + c.culturalN + c.formattingN
      = 0 then
    [("accuracy", pyRound2 (avg * (98 / 100))),
     ("fluency", pyRound2 (avg * (102 / 100))),
     ("terminology", pyRound2 (avg * (97 / 100))),
     ("cultural_appropriateness", pyRound2 (avg * (99 / 100))),
     ("formatting", pyRound2 (avg * (103 / 100)))]
  else
    [("accuracy",
      if 0 < c.accuracyN then pyRound2 (c.accuracy / (c.accuracyN : ℚ)) else 0),
     ("fluency",
      if 0 < c.fluencyN then pyRound2 (c.fluency / (c.fluencyN : ℚ)) else 0),
     ("terminology",
      if 0 < c.terminologyN then
        pyRound2 (c.terminology / (c.terminologyN : ℚ)) else 0),
     ("cultural_appropriateness",
      if 0 < c.culturalN then pyRound2 (c.cultural / (c.culturalN : ℚ)) else 0),
     ("formatting",
      if 0 < c.formattingN then
        pyRound2 (c.formatting / (c.formattingN : ℚ)) else 0)]

/-- The quality half of a ValidationResult. -/
structure QualityDetails where
  sentence_scores : List SentenceScore
  categories : List (String × ℚ)

/-- Embedding of `_validate_translation_quality(original, translated,
…)`: zero extracted pairs short-circuit to a perfect score with no
collaborator call; otherwise the pairs are validated in batches and
averaged.  The second component counts collaborator calls. -/
def validateTranslationQuality (original translated : PyVal)
    (batchSize : Nat) (collab : Nat → Resp) (rand : Nat → ℚ) :
    Except Unit (ℚ × QualityDetails) × Nat :=
  match extractPairs original translated "" with
  | [] =>
    (.ok (100, ⟨[], [("accuracy", 100), ("fluency", 100), ("terminology", 100),
      ("cultural_appropriateness", 100), ("formatting", 100)]⟩), 0)
  | p :: ps =>
    match qualityLoop collab rand (chunks batchSize (p :: ps)) 0
        ⟨0, [], emptyCatAcc⟩ with
    | (.error u, k) => (.error u, k)
    | (.ok acc, k) =>
      let avg := acc.total / (((p :: ps).length : ℚ))
      (.ok (pyRound2 avg, ⟨acc.sentences, catAverages acc.cats avg⟩), k)

end JsonTranslator

namespace JsonTranslator

/-- Python truthiness of a JSON value (`if trans`). -/
def pyTruthy : PyVal → Bool
  | .null => false
  | .bool b => b
  | .num q => q ≠ 0
  | .str s => s ≠ ""
  | .list xs => !xs.isEmpty
  | .dict kvs => !kvs.isEmpty

/-! ## src/translation_refiner.py — `_refine_batch` (top-level module)

This near-duplicate of the core refiner returns a bare list of strings:
`[str(trans) if trans else item["translation"] for trans, item in
zip(refined, batch)]`.  It performs no `isinstance(refined, list)` check,
only `len(refined)`; `len` of a string or dict succeeds (iterating
characters resp. keys), `len` of a number raises `TypeError`, which the
`except` turns into the original-translation fallback. -/

/-- Embedding of the top-level `_refine_batch(batch, …)`. -/
def topRefineBatch (batch : List RefItem) (resp : Resp) :
    Except Unit (List String) :=
  match batch with
  | [] => .error ()
  | _ :: _ =>
    match resp with
    | .raise => .ok (batch.map fun it => it.translation)
    | .nonJson => .ok (batch.map fun it => it.translation)
    | .val v =>
      match v with
      | .dict kvs =>
        match dictFind kvs (.s "refined_translations") with
        | none => .ok (batch.map fun it => it.translation)
        | some r =>
          match r with
          | .list rl =>
            if rl.length = batch.length then
              .ok (List.zipWith
                (fun trans it =>
                  if pyTruthy trans then pyStr trans else it.translation)
                rl batch)
            else .ok (batch.map fun it => it.translation)
          | .str s =>
            if s.data.length = batch.length then
              .ok (List.zipWith (fun c _ => String.mk [c]) s.data batch)
            else .ok (batch.map fun it => it.translation)
          | .dict rkvs =>
            if rkvs.length = batch.length then
              .ok (List.zipWith
                (fun kv it =>
                  if (match kv.1 with
                      | PyKey.s k => k ≠ ""
                      | PyKey.i _ => True : Bool)
                  then keyStr kv.1 else it.translation)
                rkvs batch)
            else .ok (batch.map fun it => it.translation)
          | _ => .ok (batch.map fun it => it.translation)
      | _ => .ok (batch.map fun it => it.translation)

end JsonTranslator

namespace JsonTranslator

/-- Conditions under which the heuristic fallback itself cannot raise for
a pair: version numbers and technical identifiers never divide, and
otherwise both `ZeroDivisionError` guards of `_calculate_fallback_score`
must be clear. -/
def heuristicDefined (p : Pair) : Bool :=
  isVersionNumber p.original || isTechnicalIdentifier p.original
  || (!(decide (0 < p.original.data.length ∧ p.translation.data.length = 0))
      && !(decide (0 < wordCount p.original ∧ wordCount p.translation = 0)))

theorem fallbackItem_ok {p : Pair} (hd : heuristicDefined p = true)
    (i : Nat) (rand : Nat → ℚ) :
    ∃ s cmt, fallbackItem i p rand = .ok (s, ⟨p.path, s, .str cmt,
      catsToPyVal (genCategoryScores s p.original fun j => rand (5 * i + j))⟩) := by
  unfold fallbackItem
  by_cases h1 : isVersionNumber p.original = true
  · rw [if_pos h1]
    exact ⟨_, _, rfl⟩
  · rw [if_neg h1]
    by_cases h2 : isTechnicalIdentifier p.original = true
    · rw [if_pos h2]
      exact ⟨_, _, rfl⟩
    · rw [if_neg h2]
      simp only [heuristicDefined, h1, h2, Bool.false_or, Bool.and_eq_true,
        Bool.not_eq_true', decide_eq_false_iff_not] at hd
      unfold calcFallbackScore
      rw [if_neg hd.1, if_neg hd.2]
      exact ⟨_, _, rfl⟩

theorem fallbackArmGo_ok {batch : List Pair}
    (hd : ∀ p ∈ batch, heuristicDefined p = true) :
    ∀ (i : Nat) (rand : Nat → ℚ), ∃ qs ds,
      fallbackArmGo batch i rand = .ok (qs, ds)
      ∧ ∀ d ∈ ds, ∃ cl, d.categories = catsToPyVal cl := by
  induction batch with
  | nil =>
    intro i rand
    exact ⟨[], [], rfl, fun d hdm => absurd hdm (List.not_mem_nil d)⟩
  | cons p rest ih =>
    intro i rand
    obtain ⟨s, cmt, hitem⟩ :=
      fallbackItem_ok (hd p (List.mem_cons_self _ _)) i rand
    obtain ⟨qs, ds, hgo, hcats⟩ :=
      ih (fun x hx => hd x (List.mem_cons_of_mem _ hx)) (i + 1) rand
    refine ⟨s :: qs, ⟨p.path, s, .str cmt,
      catsToPyVal (genCategoryScores s p.original fun j => rand (5 * i + j))⟩ :: ds,
      ?_, ?_⟩
    · rw [fallbackArmGo, hitem, hgo]
    · intro d hdm
      rcases List.mem_cons.mp hdm with he | hm
      · exact ⟨_, by rw [he]⟩
      · exact hcats d hm

theorem addCats_num_ok (acc : CatAcc) (cl : List (String × ℚ)) :
    ∃ a2, addCats acc (cl.map fun kv => (PyKey.s kv.1, PyVal.num kv.2))
      = .ok a2 := by
  induction cl generalizing acc with
  | nil => exact ⟨acc, rfl⟩
  | cons kv rest ih =>
    have hone : addCat acc (PyKey.s kv.1, PyVal.num kv.2)
        = .ok (if kv.1 = "accuracy" ∨ kv.1 = "fluency" ∨ kv.1 = "terminology"
            ∨ kv.1 = "cultural_appropriateness" ∨ kv.1 = "formatting"
          then bumpCat acc kv.1 kv.2 else acc) := by
      show (if kv.1 = "accuracy" ∨ kv.1 = "fluency" ∨ kv.1 = "terminology"
            ∨ kv.1 = "cultural_appropriateness" ∨ kv.1 = "formatting" then
          match scoreVal (PyVal.num kv.2) with
          | some q => Except.ok (bumpCat acc kv.1 q)
          | none => Except.error ()
        else Except.ok acc) = _
      by_cases hn : kv.1 = "accuracy" ∨ kv.1 = "fluency" ∨ kv.1 = "terminology"
          ∨ kv.1 = "cultural_appropriateness" ∨ kv.1 = "formatting"
      · rw [if_pos hn, if_pos hn]
        rfl
      · rw [if_neg hn, if_neg hn]
    obtain ⟨a2, ha2⟩ := ih (if kv.1 = "accuracy" ∨ kv.1 = "fluency"
        ∨ kv.1 = "terminology" ∨ kv.1 = "cultural_appropriateness"
        ∨ kv.1 = "formatting" then bumpCat acc kv.1 kv.2 else acc)
    refine ⟨a2, ?_⟩
    rw [List.map_cons, addCats, hone]
    show addCats (if kv.1 = "accuracy" ∨ kv.1 = "fluency"
        ∨ kv.1 = "terminology" ∨ kv.1 = "cultural_appropriateness"
        ∨ kv.1 = "formatting" then bumpCat acc kv.1 kv.2 else acc)
      (List.map (fun kv => (PyKey.s kv.1, PyVal.num kv.2)) rest) = .ok a2
    exact ha2

theorem procItems_ok : ∀ (batch : List Pair) (qs : List ℚ)
    (ds : List Detail) (acc : QAcc),
    (∀ d ∈ ds, ∃ cl, d.categories = catsToPyVal cl) →
    ∃ a2, procItems acc batch qs ds = .ok a2 := by
  intro batch
  induction batch with
  | nil => intro qs ds acc _; exact ⟨acc, rfl⟩
  | cons p ps ih =>
    intro qs ds acc hcats
    cases qs with
    | nil => exact ⟨acc, rfl⟩
    | cons q qs2 =>
      cases ds with
      | nil => exact ⟨acc, rfl⟩
      | cons d ds2 =>
        obtain ⟨cl, hcl⟩ := hcats d (List.mem_cons_self _ _)
        obtain ⟨c2, hc2⟩ := addCats_num_ok acc.cats cl
        obtain ⟨a2, ha2⟩ := ih qs2 ds2 { acc with sentences := acc.sentences ++ [⟨p.path, p.original, p.translation, q, d.comments⟩], cats := c2 } (fun d2 hd2 => hcats d2 (List.mem_cons_of_mem _ hd2))
        refine ⟨a2, ?_⟩
        rw [procItems]
        rw [show addDetailCats acc.cats d.categories = .ok c2 from by
          rw [hcl]; exact hc2]
        exact ha2

theorem qualityLoop_ok (collab : Nat → Resp) (rand : Nat → ℚ)
    (hraise : ∀ k, collab k = .raise) :
    ∀ (bs : List (List Pair)) (k : Nat) (acc : QAcc),
    (∀ batch ∈ bs, ∀ p ∈ batch, heuristicDefined p = true) →
    ∃ acc2 k2, qualityLoop collab rand bs k acc = (.ok acc2, k2) := by
  intro bs
  induction bs with
  | nil => intro k acc _; exact ⟨acc, k, rfl⟩
  | cons batch rest ih =>
    intro k acc hd
    cases hbe : batch with
    | nil =>
      obtain ⟨acc2, k2, hrec⟩ := ih (k + 1)
        { acc with total := acc.total + ([] : List ℚ).sum }
        (fun b hb => hd b (List.mem_cons_of_mem _ hb))
      refine ⟨acc2, k2, ?_⟩
      rw [qualityLoop, hraise k]
      show (match procItems { acc with total := acc.total + ([] : List ℚ).sum }
          [] [] [] with
        | .error u => (Except.error u, k + 1)
        | .ok acc2 => qualityLoop collab rand rest (k + 1) acc2) = _
      rw [show procItems { acc with total := acc.total + ([] : List ℚ).sum }
        [] [] [] = .ok { acc with total := acc.total + ([] : List ℚ).sum }
        from rfl]
      exact hrec
    | cons p ps =>
      obtain ⟨qs, ds, hgo, hcats⟩ := fallbackArmGo_ok
        (fun x hx => hd (p :: ps) (hbe ▸ List.mem_cons_self _ _) x hx)
        0 (fun j => rand (Nat.pair k j))
      obtain ⟨a2, ha2⟩ := procItems_ok (p :: ps) qs ds
        { acc with total := acc.total + qs.sum } hcats
      obtain ⟨acc2, k2, hrec⟩ := ih (k + 1) a2
        (fun b hb => hd b (List.mem_cons_of_mem _ hb))
      refine ⟨acc2, k2, ?_⟩
      rw [qualityLoop, hraise k]
      show (match validateTranslationBatch (p :: ps) .raise
          (fun j => rand (Nat.pair k j)) with
        | .error u => (Except.error u, k + 1)
        | .ok sd =>
          match procItems { acc with total := acc.total + sd.1.sum }
              (p :: ps) sd.1 sd.2 with
          | .error u => (Except.error u, k + 1)
          | .ok acc3 => qualityLoop collab rand rest (k + 1) acc3) = _
      rw [show validateTranslationBatch (p :: ps) .raise
          (fun j => rand (Nat.pair k j))
        = fallbackArmGo (p :: ps) 0 (fun j => rand (Nat.pair k j)) from rfl]
      rw [hgo]
      show (match procItems { acc with total := acc.total + qs.sum }
          (p :: ps) qs ds with
        | .error u => (Except.error u, k + 1)
        | .ok acc3 => qualityLoop collab rand rest (k + 1) acc3) = _
      rw [ha2]
      exact hrec

end JsonTranslator

namespace JsonTranslator

theorem chunksAux_join {α : Type} : ∀ (fuel b : Nat) (l : List α),
    l.length ≤ fuel → (chunksAux fuel b l).flatten = l := by
  intro fuel
  induction fuel with
  | zero =>
    intro b l h
    rw [show l = [] from List.eq_nil_of_length_eq_zero (by omega)]
    rfl
  | succ fuel ih =>
    intro b l h
    cases l with
    | nil => rfl
    | cons x xs =>
      rw [chunksAux, List.flatten_cons]
      rw [ih b (xs.drop (b - 1)) (by
        have := List.length_drop (b - 1) xs
        simp only [List.length_cons] at h
        omega)]
      rw [List.cons_append, List.take_append_drop]

theorem chunks_join {α : Type} (b : Nat) (l : List α) :
    (chunks b l).flatten = l :=
  chunksAux_join l.length b l (Nat.le_refl _)

theorem mem_of_mem_chunks {α : Type} {b : Nat} {l : List α}
    {batch : List α} {x : α} (hb : batch ∈ chunks b l) (hx : x ∈ batch) :
    x ∈ l := by
  have : x ∈ (chunks b l).flatten := List.mem_flatten.mpr ⟨batch, hb, hx⟩
  rwa [chunks_join] at this

/-- Claim C9 (amended).  The selection and refinement batch workers (core
and top-level refiner alike) raise `ValueError` on an empty batch before
any collaborator call; the validation batch worker instead returns
`([], [])` without raising and without calling the collaborator. -/
theorem claim_C9_empty_batch :
    (∀ resp : Resp, selectBestBatch [] resp = .error ())
    ∧ (∀ resp : Resp, refineBatch [] resp = .error ())
    ∧ (∀ resp : Resp, topRefineBatch [] resp = .error ())
    ∧ (∀ (resp : Resp) (rand : Nat → ℚ),
        validateTranslationBatch [] resp rand = .ok ([], [])) :=
  ⟨fun _ => rfl, fun _ => rfl, fun _ => rfl, fun _ _ => rfl⟩

/-- Counterexample to C9 as stated: the validation batch worker, given an
empty batch, returns `([], [])` instead of raising. -/
theorem claim_C9_counterexample :
    validateTranslationBatch [] .raise (fun _ => 0) = .ok ([], []) := rfl

/-- Claim C10.  Zero extracted string pairs short-circuit the non-mock
quality validation to exactly `(100.0, empty sentence scores, all five
category scores 100.0)` with zero collaborator calls. -/
theorem claim_C10_no_pairs_perfect (o t : PyVal) (b : Nat)
    (collab : Nat → Resp) (rand : Nat → ℚ)
    (h : extractPairs o t "" = []) :
    validateTranslationQuality o t b collab rand
      = (.ok (100, ⟨[], [("accuracy", 100), ("fluency", 100),
          ("terminology", 100), ("cultural_appropriateness", 100),
          ("formatting", 100)]⟩), 0) := by
  unfold validateTranslationQuality
  rw [h]

/-- Witness for C10: an object whose only common path holds a string in
the original but a number in the translation extracts no pairs. -/
theorem claim_C10_no_pairs_perfect_witness :
    validateTranslationQuality (.dict [(.s "a", .str "x")])
      (.dict [(.s "a", .num 1)]) 20 (fun _ => .raise) (fun _ => 0)
      = (.ok (100, ⟨[], [("accuracy", 100), ("fluency", 100),
          ("terminology", 100), ("cultural_appropriateness", 100),
          ("formatting", 100)]⟩), 0) :=
  claim_C10_no_pairs_perfect (.dict [(.s "a", .str "x")])
    (.dict [(.s "a", .num 1)]) 20 (fun _ => .raise) (fun _ => 0) rfl

/-- Claim C8 (amended).  When every collaborator call raises (transport
failure) and the heuristic itself is defined on every extracted pair (no
empty translation against a non-empty, non-identifier original), the
quality scoring returns a score through the length/character-overlap
fallback instead of raising.  As stated the claim is false: a collaborator
that returns unparseable text makes the stage re-raise `RuntimeError`
(see the counterexample), and an empty translation makes the fallback
itself raise `ZeroDivisionError`. -/
theorem claim_C8_quality_fallback (o t : PyVal) (b : Nat)
    (collab : Nat → Resp) (rand : Nat → ℚ)
    (hraise : ∀ k, collab k = .raise)
    (hdef : ∀ p ∈ extractPairs o t "", heuristicDefined p = true) :
    ∃ score details calls,
      validateTranslationQuality o t b collab rand
        = (.ok (score, details), calls) := by
  unfold validateTranslationQuality
  cases hp : extractPairs o t "" with
  | nil => exact ⟨100, _, 0, rfl⟩
  | cons p ps =>
    obtain ⟨acc2, k2, hloop⟩ := qualityLoop_ok collab rand hraise
      (chunks b (p :: ps)) 0 ⟨0, [], emptyCatAcc⟩ (by
        intro batch hb q hq
        apply hdef
        rw [hp]
        exact mem_of_mem_chunks hb hq)
    refine ⟨pyRound2 (acc2.total / (((p :: ps).length : ℚ))),
      ⟨acc2.sentences,
        catAverages acc2.cats (acc2.total / (((p :: ps).length : ℚ)))⟩,
      k2, ?_⟩
    show (match qualityLoop collab rand (chunks b (p :: ps)) 0
        ⟨0, [], emptyCatAcc⟩ with
      | (.error u, k) => ((Except.error u : Except Unit (ℚ × QualityDetails)), k)
      | (.ok acc, k) =>
        (Except.ok (pyRound2 (acc.total / (((p :: ps).length : ℚ))),
          ⟨acc.sentences,
            catAverages acc.cats (acc.total / (((p :: ps).length : ℚ)))⟩), k))
      = _
    rw [hloop]

/-- Witness for C8 (amended): a concrete one-pair input under an
always-raising collaborator produces a successful score. -/
theorem claim_C8_quality_fallback_witness :
    (validateTranslationQuality (.dict [(.s "a", .str "Hello")])
      (.dict [(.s "a", .str "Hola")]) 20 (fun _ => .raise)
      (fun _ => 0)).1.isOk = true := by
  obtain ⟨s, d, c, h⟩ := claim_C8_quality_fallback
    (.dict [(.s "a", .str "Hello")]) (.dict [(.s "a", .str "Hola")]) 20
    (fun _ => .raise) (fun _ => 0) (fun _ => rfl) (by decide)
  rw [h]
  rfl

/-- Counterexample to C8 as stated: a collaborator returning non-JSON
text makes `_validate_translation_batch` re-raise `RuntimeError`, which
propagates out of the quality validation. -/
theorem claim_C8_counterexample :
    (validateTranslationQuality (.dict [(.s "a", .str "x")])
      (.dict [(.s "a", .str "y")]) 20 (fun _ => .nonJson)
      (fun _ => 0)).1 = .error () := rfl

end JsonTranslator

namespace JsonTranslator

/-! ## src/translation_generator.py — `generate_translation_options`, and
src/translation_refiner.py — `refine_translations` (checkpoint contract)

One (filename, language) slice of each stage.  The checkpoint file is
modelled as its parsed CSV rows (`csv.writer`/`csv.reader` round-trip any
list of strings); `none` means the file does not exist.  `call_openai`
raising or returning is one `Resp` per batch. -/

/-- Parsed CSV contents: one row of cells per line, header first. -/
abbrev Csv := List (List String)

/-- Python `d[k] = v` on a string-keyed mapping with values in `β`. -/
def assocSet {β : Type} (acc : List (String × β)) (k : String) (v : β) :
    List (String × β) :=
  match acc with
  | [] => [(k, v)]
  | (k0, v0) :: rest =>
    if k0 = k then (k0, v) :: rest else (k0, v0) :: assocSet rest k v

/-- Python `d.get(k)`. -/
def assocFind {β : Type} : List (String × β) → String → Option β
  | [], _ => none
  | (k0, v0) :: rest, k => if k0 = k then some v0 else assocFind rest k

/-- Python slice `row[2:2+optcount]` (`optcount` may be negative when the
header has fewer than two columns). -/
def sliceFrom2 (row : List String) (optcount : Int) : List String :=
  if optcount ≤ 0 then [] else (row.drop 2).take optcount.toNat

/-- The `existing_options` mapping read back from an options CSV:
`option_count = len(header) - 2`; rows with enough cells contribute
`row[0] ↦ row[2:2+option_count]`, later rows overwriting earlier. -/
def buildExisting (rows : Csv) (optcount : Int) :
    List (String × List String) :=
  rows.foldl
    (fun acc row =>
      if 2 + optcount ≤ (row.length : Int) then
        assocSet acc (row.headD "") (sliceFrom2 row optcount)
      else acc)
    []

/-- The per-batch assignment loop of the checkpoint-exists branch: every
path of every batch gets its loaded options, or `[""] * options_count`
when the CSV lacks the path. -/
def loadBatches (existing : List (String × List String)) (c : Nat)
    (bs : List (List (String × String)))
    (acc : List (String × List String)) : List (String × List String) :=
  bs.foldl
    (fun a chunk =>
      chunk.foldl
        (fun a2 ps =>
          assocSet a2 ps.1 ((assocFind existing ps.1).getD (List.replicate c "")))
        a)
    acc

/-- The fresh-computation loop: one `_generate_batch_options` call per
batch (entry `j` of the reply, or the placeholder row when missing). -/
def genBatches (collab : Nat → Resp) (c : Nat) :
    List (List (String × String)) → Nat → List (String × List String) →
    List (String × List String) × Nat
  | [], k, acc => (acc, k)
  | chunk :: rest, k, acc =>
    let batchOptions := generateBatchOptions (chunk.map Prod.snd) c (collab k)
    genBatches collab c rest (k + 1)
      ((List.range chunk.length).foldl
        (fun a2 j =>
          assocSet a2 ((chunk.map Prod.fst).getD j "")
            (batchOptions.getD j (List.replicate c "Translation error")))
        acc)

/-- The CSV written at the end of a fresh run: header, then one row per
extracted string in input order, with the computed options (or the
placeholder row for a path that was never assigned). -/
def saveOptionsCsv (strings : List (String × String)) (c : Nat)
    (result : List (String × List String)) : Csv :=
  (["Path", "Original"] ++ (List.range c).map fun i => "Option " ++ natStr (i + 1))
  :: strings.map fun ps =>
      match assocFind result ps.1 with
      | some opts => ps.1 :: ps.2 :: opts
      | none => ps.1 :: ps.2 :: List.replicate c "Translation error"

/-- Embedding of `generate_translation_options` restricted to one
(filename, language): returns the per-path options mapping, the resulting
checkpoint file state, and the number of collaborator calls.
`batch_size = 0` makes `range` raise `ValueError`; an existing but empty
checkpoint file makes `next(reader)` raise `StopIteration`. -/
def generateStage (strings : List (String × String)) (c b : Nat)
    (collab : Nat → Resp) (fs : Option Csv) :
    Except Unit (List (String × List String) × Option Csv × Nat) :=
  if b = 0 then .error ()
  else
    match fs with
    | some [] => .error ()
    | some (header :: rows) =>
      let existing := buildExisting rows ((header.length : Int) - 2)
      .ok (loadBatches existing c (chunks b strings) [],
        some (header :: rows), 0)
    | none =>
      let rk := genBatches collab c (chunks b strings) 0 []
      .ok (rk.1, some (saveOptionsCsv strings c rk.1), rk.2)

/-- The stage output the claim calls "the contents loaded from the
checkpoint file": for every extracted path in order, the CSV row's
options, defaulting to `[""] * options_count`. -/
def loadedOptions (header : List String) (rows : Csv)
    (strings : List (String × String)) (c : Nat) :
    List (String × List String) :=
  strings.map fun ps =>
    (ps.1, (assocFind (buildExisting rows ((header.length : Int) - 2)) ps.1).getD
      (List.replicate c ""))

/-- Traversal worker for `getOriginal`. -/
def getOriginalGo : PyVal → List String → String
  | .str s, [] => s
  | _, [] => ""
  | .dict kvs, comp :: rest =>
    match dictFind kvs (.s comp) with
    | some child => getOriginalGo child rest
    | none => ""
  | _, _ :: _ => ""

/-- The original-string lookup of `refine_translations` (no digit
conversion: list nodes always raise `TypeError`, caught as `""`). -/
def getOriginal (orig : PyVal) (path : String) : String :=
  getOriginalGo orig (pySplitDot path)

/-- The mapping loaded back from a refinements CSV: rows with at least
three cells contribute `row[0] ↦ row[2]`. -/
def loadedRefinements (rows : Csv) : List (String × String) :=
  rows.foldl
    (fun acc row =>
      if 3 ≤ row.length then assocSet acc (row.headD "") (row.getD 2 "")
      else acc)
    []

/-- Embedding of the top-level `refine_translations` restricted to one
(filename, language) present in the selections.  The checkpoint branch
loads and `continue`s before batching.  The fresh branch builds
`refinement_data`, and on its first non-empty batch crashes with
`TypeError`: `_refine_batch` returns a list of strings, but the caller
iterates it as `item["path"]` (a latent bug of this module; the claim
only concerns the checkpoint branch). -/
def refineStage (selections : List (String × String)) (origJson : PyVal)
    (b : Nat) (collab : Nat → Resp) (fs : Option Csv) :
    Except Unit (List (String × String) × Option Csv × Nat) :=
  match fs with
  | some [] => .error ()
  | some (header :: rows) =>
    .ok (loadedRefinements rows, some (header :: rows), 0)
  | none =>
    if b = 0 then .error ()
    else
      let refinementData : List RefItem := selections.map fun ps =>
        ⟨ps.1, getOriginal origJson ps.1, ps.2⟩
      match chunks b refinementData with
      | [] => .ok ([], some [["Path", "Original", "Refined Translation"]], 0)
      | batch :: _ =>
        match topRefineBatch batch (collab 0) with
        | .error u => .error u
        | .ok [] => .ok ([], some [["Path", "Original", "Refined Translation"]], 1)
        | .ok (_ :: _) => .error ()

end JsonTranslator

namespace JsonTranslator

theorem assocSet_append {β : Type} {acc : List (String × β)} {k : String}
    (v : β) (h : k ∉ acc.map Prod.fst) : assocSet acc k v = acc ++ [(k, v)] := by
  induction acc with
  | nil => rfl
  | cons kv rest ih =>
    obtain ⟨k0, v0⟩ := kv
    simp only [List.map_cons, List.mem_cons, not_or] at h
    rw [assocSet, if_neg (fun he => h.1 he.symm), ih h.2]
    rfl

theorem foldl_chunks {β γ : Type} (g : γ → β → γ) :
    ∀ (bs : List (List β)) (acc : γ),
    bs.foldl (fun a chunk => chunk.foldl g a) acc = bs.flatten.foldl g acc := by
  intro bs
  induction bs with
  | nil => intro acc; rfl
  | cons chunk rest ih =>
    intro acc
    rw [List.foldl_cons, List.flatten_cons, List.foldl_append, ih]

theorem foldl_assocSet_map {β : Type} (f : String × String → β) :
    ∀ (strings : List (String × String)) (acc : List (String × β)),
    (strings.map Prod.fst).Nodup →
    (∀ s ∈ strings, s.1 ∉ acc.map Prod.fst) →
    strings.foldl (fun a ps => assocSet a ps.1 (f ps)) acc
      = acc ++ strings.map fun ps => (ps.1, f ps) := by
  intro strings
  induction strings with
  | nil => intro acc _ _; simp
  | cons s rest ih =>
    intro acc hnd hfresh
    simp only [List.map_cons, List.nodup_cons] at hnd
    rw [List.foldl_cons,
      assocSet_append (f s) (hfresh s (List.mem_cons_self _ _))]
    rw [ih (acc ++ [(s.1, f s)]) hnd.2 ?_]
    · simp
    · intro x hx
      simp only [List.map_append, List.mem_append, List.map_cons, List.map_nil,
        List.mem_singleton, not_or]
      refine ⟨hfresh x (List.mem_cons_of_mem _ hx), ?_⟩
      intro he
      exact hnd.1 (he ▸ List.mem_map_of_mem Prod.fst hx)

/-- Claim C2.  For both cited stages, when the per-(file, language)
checkpoint file already exists (with its header row), running the stage
makes zero collaborator calls, leaves the checkpoint untouched, and
returns exactly the contents loaded from it (for the options stage, every
extracted path in input order with its CSV row, defaulting to
`[""] * options_count` for paths the file lacks; for the refinements
stage, `row[0] ↦ row[2]` of every well-formed row).  Since the file state
is unchanged, running the stage a second time is the very same equation:
identical output, zero further collaborator calls. -/
theorem claim_C2_checkpoint_resume (strings : List (String × String))
    (c b : Nat) (collab : Nat → Resp) (header : List String) (rows : Csv)
    (hb : 0 < b) (hnd : (strings.map Prod.fst).Nodup)
    (selections : List (String × String)) (origJson : PyVal)
    (collab2 : Nat → Resp) (rheader : List String) (rrows : Csv) :
    generateStage strings c b collab (some (header :: rows))
      = .ok (loadedOptions header rows strings c, some (header :: rows), 0)
    ∧ refineStage selections origJson b collab2 (some (rheader :: rrows))
      = .ok (loadedRefinements rrows, some (rheader :: rrows), 0) := by
  constructor
  · rw [generateStage, if_neg (by omega)]
    show Except.ok (loadBatches _ c (chunks b strings) [],
      some (header :: rows), 0) = _
    rw [show loadBatches (buildExisting rows ((header.length : Int) - 2)) c
        (chunks b strings) []
      = loadedOptions header rows strings c from ?_]
    unfold loadBatches
    rw [foldl_chunks, chunks_join]
    rw [foldl_assocSet_map
      (fun ps => (assocFind (buildExisting rows ((header.length : Int) - 2))
        ps.1).getD (List.replicate c "")) strings [] hnd
      (by intro s _ hs; cases hs)]
    rfl
  · rfl

/-- Witness for C2 on a concrete two-path file whose checkpoint holds one
of the two paths, and a concrete refinements checkpoint. -/
theorem claim_C2_checkpoint_resume_witness :
    generateStage [("a", "x"), ("b", "y")] 2 10 (fun _ => .raise)
        (some [["Path", "Original", "Option 1", "Option 2"],
               ["a", "x", "o1", "o2"]])
      = .ok ([("a", ["o1", "o2"]), ("b", ["", ""])],
          some [["Path", "Original", "Option 1", "Option 2"],
                ["a", "x", "o1", "o2"]], 0)
    ∧ refineStage [("a", "t")] (.dict [(.s "a", .str "x")]) 10
        (fun _ => .raise)
        (some [["Path", "Original", "Refined Translation"],
               ["a", "x", "r"]])
      = .ok ([("a", "r")],
          some [["Path", "Original", "Refined Translation"],
                ["a", "x", "r"]], 0) := by
  have h := claim_C2_checkpoint_resume [("a", "x"), ("b", "y")] 2 10
    (fun _ => .raise) ["Path", "Original", "Option 1", "Option 2"]
    [["a", "x", "o1", "o2"]] (by decide) (by decide)
    [("a", "t")] (.dict [(.s "a", .str "x")]) (fun _ => .raise)
    ["Path", "Original", "Refined Translation"] [["a", "x", "r"]]
  refine ⟨?_, ?_⟩
  · rw [h.1]
    rfl
  · rw [h.2]
    rfl

end JsonTranslator
